import Mathlib

/-!
Verification of the Highcharts excerpt (grid axis layout, 3D path
projection, technical indicators) against its specification.

The JavaScript/TypeScript sources are embedded shallowly:

* JS numbers are modelled as exact rationals (or reals where
  trigonometry is involved); JS arithmetic on numbers carries over
  directly, and the embedding never needs NaN on the inputs the
  theorems quantify over.
* JS arrays become lists; out-of-range reads, which yield undefined in
  JS, are modelled with default values and are only exercised outside
  the domains covered by the theorems.
* The failure sentinel false returned by indicator getValues functions
  is modelled by Option.none.
* Functions of this repository that are not part of the excerpt
  (H.correctFloat, H.shapeArea, H.perspective, the EMA indicator
  prototype) are either taken as parameters (perspective) or modelled
  from the specification text; each such definition carries a doc
  comment saying so.
-/

/-- JS Math.round: round half toward positive infinity. -/
def jsRound (q : ℚ) : ℤ := ⌊q + 1/2⌋

/-- Power of ten with integer exponent, computable on rationals. -/
def pow10 (s : ℤ) : ℚ :=
  if 0 ≤ s then ((10 ^ s.toNat : ℕ) : ℚ) else 1 / ((10 ^ (-s).toNat : ℕ) : ℚ)

/-- Fuel-driven floor of log base 10 on naturals (exact for n below 10 ^ fuel). -/
def log10Fuel : ℕ → ℕ → ℕ
  | 0, _ => 0
  | fuel + 1, n => if n < 10 then 0 else 1 + log10Fuel fuel (n / 10)

/-- Fuel-driven ceiling of log base 10 on naturals (smallest k with 10 ^ k at least n). -/
def clog10Fuel : ℕ → ℕ → ℕ
  | 0, _ => 0
  | fuel + 1, n => if n ≤ 1 then 0 else 1 + clog10Fuel fuel ((n + 9) / 10)

/-- Floor of the base-10 logarithm of a positive rational. -/
def ratExp10 (q : ℚ) : ℤ :=
  if 1 ≤ q then (log10Fuel ⌊q⌋.toNat ⌊q⌋.toNat : ℤ)
  else -(clog10Fuel ⌈q⁻¹⌉.toNat ⌈q⁻¹⌉.toNat : ℤ)

/-- Modelled from the spec: H.correctFloat (parts/Utilities, not under src/),
rounding every float output "to a fixed decimal precision"; the Highcharts
default precision of 14 significant digits is used
(JS: parseFloat(num.toPrecision(14))). -/
def correctFloat (x : ℚ) : ℚ :=
  if x = 0 then 0
  else
    let s : ℤ := 13 - ratExp10 |x|
    ((round (x * pow10 s) : ℤ) : ℚ) / pow10 s

/-- One entry of a series yData array: either a plain number or a row
(OHLC tuple, or a K/D pair built by the stochastic indicator, whose
second slot may be null). -/
inductive YVal where
  | num (q : ℚ)
  | arr (l : List (Option ℚ))
  deriving DecidableEq

/-- Extraction of the value the indicators work on:
JS `index < 0 ? yVal[i] : yVal[i][index]`.  A null row entry coerces to 0
in JS arithmetic, which getD matches.  The two mismatch cases (a numeric
entry hit with a nonnegative index, or a row hit with index -1) produce
NaN respectively garbage in JS; they are unreachable because the index is
chosen from the shape of the first entry, and every theorem below uses
shape-homogeneous input. -/
def getY (index : ℤ) : YVal → ℚ
  | .num q => q
  | .arr l => (l.getD index.toNat none).getD 0

/-- JS isArray test on the head of the yData array. -/
def headIsArray : List YVal → Bool
  | .arr _ :: _ => true
  | _ => false

/-- Result object of an indicator getValues call: parallel values, xData
and yData arrays. -/
structure IndicatorValues where
  values : List (ℚ × ℚ)
  xData : List ℚ
  yData : List ℚ
  deriving DecidableEq

/-- Sum of the window of n entries of vals starting at index s. -/
def windowSum (vals : List ℚ) (s n : ℕ) : ℚ := ((vals.drop s).take n).sum

/--
The running-sum loop of SMAIndicator.getValues (src/unnamed/part_000,
lines 874-888): at loop index i the newest value is added, the point
[xVal[i], sum / period] is pushed, and the value leaving the window
(at i - (period - 1)) is subtracted.  fuel counts the remaining
iterations (the JS loop runs while i < yValLen).
-/
def smaLoop (period : ℕ) (xVal vals : List ℚ) : ℕ → ℚ → ℕ → List (ℚ × ℚ)
  | _, _, 0 => []
  | i, sum, fuel + 1 =>
    let sum1 := sum + vals.getD i 0
    (xVal.getD i 0, sum1 / (period : ℚ)) ::
      smaLoop period xVal vals (i + 1) (sum1 - vals.getD (i - (period - 1)) 0) fuel

namespace SMAIndicator

/--
SMAIndicator.getValues (src/unnamed/part_000, lines 840-895).
Returns the failure sentinel (none) when xVal is shorter than period;
otherwise accumulates the first period-1 values and runs the sliding
window loop over the remaining yData indices.  paramsIndex models
params.index (JS `index = params.index ? params.index : 0`, which is
Option.getD 0 since 0 maps to 0 either way).
-/
def getValues (period : ℕ) (paramsIndex : Option ℕ) (xVal : List ℚ)
    (yVal : List YVal) : Option IndicatorValues :=
  if xVal.length < period then none
  else
    let index : ℤ := if headIsArray yVal then (paramsIndex.getD 0 : ℤ) else -1
    let vals := yVal.map (getY index)
    let sum0 := (vals.take (period - 1)).sum
    let SMA := smaLoop period xVal vals (period - 1) sum0 (yVal.length - (period - 1))
    some ⟨SMA, SMA.map Prod.fst, SMA.map Prod.snd⟩

end SMAIndicator

theorem windowSum_succ (vals : List ℚ) (s n : ℕ) :
    windowSum vals s (n + 1) = windowSum vals s n + vals.getD (s + n) 0 := by
  simp only [windowSum, List.take_succ, List.sum_append, List.getD_eq_getElem?_getD,
    List.getElem?_drop]
  rcases h : vals[s + n]? with _ | q <;> simp [h]

theorem windowSum_shift (vals : List ℚ) (s n : ℕ) :
    windowSum vals s (n + 1) - vals.getD s 0 = windowSum vals (s + 1) n := by
  rcases lt_or_le s vals.length with h | h
  · rw [windowSum, windowSum, List.drop_eq_getElem_cons h, List.take_succ_cons, List.sum_cons,
      List.getD_eq_getElem?_getD, List.getElem?_eq_getElem h]
    simp
  · rw [windowSum, windowSum, List.drop_eq_nil_of_le h,
      List.drop_eq_nil_of_le (le_trans h (Nat.le_succ_of_le le_rfl))]
    simp [List.getD_eq_getElem?_getD, List.getElem?_eq_none h]

/--
Closed form of the running-sum loop for period p + 1: starting at
absolute index s + p with the sum of the previous p values, the j-th
emitted point is the x value at index s + j + p and the mean of the
(p + 1)-sized window starting at s + j.
-/
theorem smaLoop_eq (p : ℕ) (xVal vals : List ℚ) (fuel : ℕ) :
    ∀ s : ℕ,
      smaLoop (p + 1) xVal vals (s + p) (windowSum vals s p) fuel =
      (List.range fuel).map (fun j =>
        (xVal.getD (s + j + p) 0, windowSum vals (s + j) (p + 1) / ((p + 1 : ℕ) : ℚ))) := by
  induction fuel with
  | zero => intro s; simp [smaLoop]
  | succ fuel ih =>
    intro s
    rw [smaLoop, List.range_succ_eq_map]
    have hadd : windowSum vals s p + vals.getD (s + p) 0 = windowSum vals s (p + 1) :=
      (windowSum_succ vals s p).symm
    have hidx : s + p - (p + 1 - 1) = s := by omega
    simp only [hadd, hidx]
    have hsub : windowSum vals s (p + 1) - vals.getD s 0 = windowSum vals (s + 1) p :=
      windowSum_shift vals s p
    have hstep := ih (s + 1)
    rw [show s + 1 + p = s + p + 1 by omega] at hstep
    rw [hsub, hstep]
    refine List.cons_eq_cons.mpr ⟨by simp, ?_⟩
    rw [List.map_map]
    apply List.map_congr_left
    intro j _
    simp only [Function.comp_apply, Nat.succ_eq_add_one]
    have h1 : s + 1 + j = s + (j + 1) := by omega
    rw [h1]

theorem getD_map_range (c j : ℕ) (g : ℕ → ℚ) (h : j < c) :
    ((List.range c).map g).getD j 0 = g j := by
  simp [List.getD_eq_getElem?_getD, List.getElem?_map, List.getElem?_range h]

/-- The list of points SMAIndicator.getValues produces when the data
suffices for period p + 1 (see smaGetValues_eq). -/
def smaList (p : ℕ) (pIdx : Option ℕ) (xVal : List ℚ) (yVal : List YVal) : List (ℚ × ℚ) :=
  (List.range (yVal.length - p)).map (fun j =>
    (xVal.getD (j + p) 0,
      windowSum (yVal.map (getY (if headIsArray yVal then (pIdx.getD 0 : ℤ) else -1)))
        j (p + 1) / ((p + 1 : ℕ) : ℚ)))

/--
Characterization of SMAIndicator.getValues for sufficient data: the
result is the list of windowed means, one point per yData index from
period - 1 on.
-/
theorem smaGetValues_eq (p : ℕ) (pIdx : Option ℕ) (xVal : List ℚ) (yVal : List YVal)
    (hlen : p + 1 ≤ xVal.length) :
    SMAIndicator.getValues (p + 1) pIdx xVal yVal =
      some ⟨smaList p pIdx xVal yVal, (smaList p pIdx xVal yVal).map Prod.fst,
        (smaList p pIdx xVal yVal).map Prod.snd⟩ := by
  rw [SMAIndicator.getValues, if_neg (not_lt.2 hlen)]
  have h0 : ∀ l : List ℚ, (l.take p).sum = windowSum l 0 p := by
    intro l; simp [windowSum]
  have hL := smaLoop_eq p xVal
    (yVal.map (getY (if headIsArray yVal then (pIdx.getD 0 : ℤ) else -1)))
    (yVal.length - (p + 1 - 1)) 0
  simp only [Nat.add_sub_cancel, zero_add] at hL ⊢
  rw [h0, hL]
  rfl

/--
C1.  For a positive period p and parallel xData/yData arrays of length
n: if n < p the SMA getValues call returns the failure sentinel; if
n >= p it returns a result whose three arrays have length n - p + 1,
the j-th yData value being the mean of the p input values ending at
input index p - 1 + j and the j-th xData value the input x at that
index.
-/
theorem sma_length_and_mean (p n : ℕ) (hp : 0 < p) (xs ys : List ℚ)
    (hx : xs.length = n) (hy : ys.length = n) :
    (n < p → SMAIndicator.getValues p none xs (ys.map YVal.num) = none) ∧
    (p ≤ n → ∃ r, SMAIndicator.getValues p none xs (ys.map YVal.num) = some r ∧
      r.values.length = n - p + 1 ∧ r.xData.length = n - p + 1 ∧ r.yData.length = n - p + 1 ∧
      ∀ j < n - p + 1, r.yData.getD j 0 = windowSum ys j p / (p : ℚ) ∧
        r.xData.getD j 0 = xs.getD (p - 1 + j) 0) := by
  obtain ⟨q, rfl⟩ : ∃ q, p = q + 1 := ⟨p - 1, by omega⟩
  constructor
  · intro hlt
    rw [SMAIndicator.getValues, if_pos (by omega)]
  · intro hge
    have hmapnum : ∀ l : List ℚ, (l.map YVal.num).map (getY (-1)) = l := by
      intro l
      induction l with
      | nil => rfl
      | cons a t ih => simp [getY, ih]
    have hhead : headIsArray (ys.map YVal.num) = false := by
      rcases ys with _ | ⟨a, t⟩ <;> simp [headIsArray]
    have hvals : (ys.map YVal.num).map (getY (if headIsArray (ys.map YVal.num) then ((none : Option ℕ).getD 0 : ℤ) else -1)) = ys := by
      rw [hhead]
      simpa using hmapnum ys
    refine ⟨_, smaGetValues_eq q none xs (ys.map YVal.num) (by omega), ?_⟩
    have hsl : smaList q none xs (ys.map YVal.num) =
        (List.range (n - q)).map (fun j =>
          (xs.getD (j + q) 0, windowSum ys j (q + 1) / ((q + 1 : ℕ) : ℚ))) := by
      rw [smaList, hvals]
      simp [hy]
    simp only [hsl, List.length_map, List.length_range]
    refine ⟨by omega, by omega, by omega, ?_⟩
    intro j hj
    have hjq : j < n - q := by omega
    constructor
    · rw [show ((List.range (n - q)).map (fun j =>
        (xs.getD (j + q) 0, windowSum ys j (q + 1) / ((q + 1 : ℕ) : ℚ)))).map Prod.snd =
        (List.range (n - q)).map (fun j => windowSum ys j (q + 1) / ((q + 1 : ℕ) : ℚ)) by
          rw [List.map_map]; rfl]
      rw [getD_map_range _ _ _ hjq]
    · rw [show ((List.range (n - q)).map (fun j =>
        (xs.getD (j + q) 0, windowSum ys j (q + 1) / ((q + 1 : ℕ) : ℚ)))).map Prod.fst =
        (List.range (n - q)).map (fun j => xs.getD (j + q) 0) by
          rw [List.map_map]; rfl]
      rw [getD_map_range _ _ _ hjq, show q + 1 - 1 + j = j + q by omega]

/--
Witness for C1, using the end-to-end example from the spec: SMA with
period 3 over yData [1,2,3,4,5] and xData [0,1,2,3,4] yields yData
[2,3,4] at xData [2,3,4].
-/
theorem sma_length_and_mean_witness :
    SMAIndicator.getValues 3 none [0, 1, 2, 3, 4] (([1, 2, 3, 4, 5] : List ℚ).map YVal.num) =
      some ⟨[(2, 2), (3, 3), (4, 4)], [2, 3, 4], [2, 3, 4]⟩ ∧
    ((3 : ℕ) ≤ 5 → ∃ r,
      SMAIndicator.getValues 3 none [0, 1, 2, 3, 4] (([1, 2, 3, 4, 5] : List ℚ).map YVal.num) = some r ∧
      r.values.length = 5 - 3 + 1 ∧ r.xData.length = 5 - 3 + 1 ∧ r.yData.length = 5 - 3 + 1 ∧
      ∀ j < 5 - 3 + 1, r.yData.getD j 0 = windowSum [1, 2, 3, 4, 5] j 3 / (3 : ℚ) ∧
        r.xData.getD j 0 = [(0 : ℚ), 1, 2, 3, 4].getD (3 - 1 + j) 0) :=
  ⟨by norm_num [SMAIndicator.getValues, smaLoop, headIsArray, getY],
    (sma_length_and_mean 3 5 (by norm_num) [0, 1, 2, 3, 4] [1, 2, 3, 4, 5] rfl rfl).2⟩

namespace EMAIndicator

/-- Modelled from the spec: EMAIndicator.prototype.calculateEma (the EMA
indicator file is not under src/; src only calls it).  Spec 4.3: EMA is
"exponential smoothing with factor 2/(period+1); seeded by the SMA of the
first period points; recurrence EMA[i] = value[i]*factor +
EMA[i-1]*(1-factor)", and the common contract passes float outputs
through correctFloat.  Returns the pair [xVal[i-1], ema]; a missing
previous EMA (undefined in JS) selects the SMA seed. -/
def calculateEma (xVal : List ℚ) (yVal : List YVal) (i : ℕ) (EMApercent : ℚ)
    (prevEMA : Option ℚ) (index : ℤ) (SMA : ℚ) : ℚ × ℚ :=
  let x := xVal.getD (i - 1) 0
  let yValue := getY index (yVal.getD (i - 1) (.num 0))
  let y :=
    match prevEMA with
    | none => SMA
    | some prev => correctFloat (yValue * EMApercent + prev * (1 - EMApercent))
  (x, y)

/-- Modelled from the spec: EMAIndicator.prototype.accumulatePeriodPoints
(not under src/): the sum of the first period extracted values of yVal,
which the callers divide by period to seed the EMA recurrence. -/
def accumulatePeriodPoints (period : ℕ) (index : ℤ) (yVal : List YVal) : ℚ :=
  ((yVal.take period).map (getY index)).sum

end EMAIndicator

/-- Mutable locals of the DEMA getValues loop. -/
structure DemaState where
  prevEMA : Option ℚ
  prevEMAlevel2 : Option ℚ
  sma : ℚ
  acc : ℚ
  ema : ℚ
  emaValues : List ℚ
  out : List (ℚ × ℚ)

namespace DEMAIndicator

/--
The loop of DEMAIndicator.getValues (src/unnamed/part_001, lines
197-234), running i from period while i < yValLen + 2 (fuel counts the
remaining iterations).  Level-1 EMA values are produced while
i < yValLen + 1; from i = doubledPeriod on, the level-2 EMA of the
level-1 values is formed and the point
[xVal[i-2], correctFloat(2*EMA - EMAlevel2)] is pushed.  The inner
this.getEMA calls delegate to calculateEma with an empty xVal (the JS
call site omits the xVal argument) and defaults i = 1, index = -1
where omitted.
-/
def demaLoop (period : ℕ) (EMApercent : ℚ) (index : ℤ) (xVal : List ℚ)
    (yVal : List YVal) : ℕ → ℕ → DemaState → DemaState
  | _, 0, st => st
  | i, fuel + 1, st =>
    let yValLen := yVal.length
    let st1 :=
      if i < yValLen + 1 then
        let e := (EMAIndicator.calculateEma [] yVal i EMApercent st.prevEMA index st.sma).2
        { st with ema := e, emaValues := st.emaValues ++ [e] }
      else st
    let st2 := { st1 with prevEMA := some st1.ema }
    let st3 :=
      if i < 2 * period then { st2 with acc := st2.acc + st2.ema }
      else
        let stA := if i = 2 * period then { st2 with sma := st2.acc / (period : ℚ) } else st2
        let ema1 := stA.emaValues.getD (i - period - 1) 0
        let level2 := (EMAIndicator.calculateEma [] [YVal.num ema1] 1 EMApercent
          stA.prevEMAlevel2 (-1) stA.sma).2
        let pt := (xVal.getD (i - 2) 0, correctFloat (2 * ema1 - level2))
        { stA with ema := ema1, out := stA.out ++ [pt], prevEMAlevel2 := some level2 }
    demaLoop period EMApercent index xVal yVal (i + 1) fuel st3

/--
DEMAIndicator.getValues (src/unnamed/part_001, lines 145-241).  Fails
(none, the JS false sentinel, with no partial series) when yData is
shorter than 2*period - 1; otherwise seeds the recurrence with the mean
of the first period points and runs the loop.
-/
def getValues (period : ℕ) (paramsIndex : Option ℕ) (xVal : List ℚ)
    (yVal : List YVal) : Option IndicatorValues :=
  let EMApercent : ℚ := 2 / ((period : ℚ) + 1)
  if yVal.length < 2 * period - 1 then none
  else
    let index : ℤ := if headIsArray yVal then (paramsIndex.getD 0 : ℤ) else -1
    let sma0 := EMAIndicator.accumulatePeriodPoints period index yVal / (period : ℚ)
    let st := demaLoop period EMApercent index xVal yVal period ((yVal.length + 2) - period)
      ⟨none, none, sma0, 0, 0, [], []⟩
    some ⟨st.out, st.out.map Prod.fst, st.out.map Prod.snd⟩

end DEMAIndicator

/-- Mutable locals of the TEMA getValues loop (the EMAlevels object and
the accumulator variables). -/
structure TemaState where
  prevEMA : Option ℚ
  prevEMAlevel2 : Option ℚ
  prevLevel3 : Option ℚ
  sma : ℚ
  acc : ℚ
  level1 : ℚ
  level2 : ℚ
  emaValues : List ℚ
  emaLevel2Values : List ℚ
  out : List (ℚ × ℚ)

namespace TEMAIndicator

/--
The loop of TEMAIndicator.getValues (src/unnamed/part_000, lines
229-301), running i from period while i < yValLen + 3.  Level-1 EMAs
are produced while i < yValLen + 1; from i = doubledPeriod the level-2
cascade starts (resetting the seed accumulator at i = doubledPeriod);
from i = tripledPeriod the level-3 cascade starts, with one extra
level-1/level-2 step at i = yValLen + 1, and each iteration then pushes
[xVal[i-3], correctFloat(3*level1 - 3*level2 + level3)]
(getTemaPoint, lines 157-172; the point is always an array, hence
always pushed).
-/
def temaLoop (period : ℕ) (EMApercent : ℚ) (index : ℤ) (xVal : List ℚ)
    (yVal : List YVal) : ℕ → ℕ → TemaState → TemaState
  | _, 0, st => st
  | i, fuel + 1, st =>
    let yValLen := yVal.length
    let st1 :=
      if i < yValLen + 1 then
        let e := (EMAIndicator.calculateEma [] yVal i EMApercent st.prevEMA index st.sma).2
        { st with level1 := e, emaValues := st.emaValues ++ [e] }
      else st
    let st2 := { st1 with prevEMA := some st1.level1 }
    let st3 :=
      if i < 2 * period then { st2 with acc := st2.acc + st2.level1 }
      else
        let stA :=
          if i = 2 * period then { st2 with sma := st2.acc / (period : ℚ), acc := 0 } else st2
        let l1 := stA.emaValues.getD (i - period - 1) 0
        let l2 := (EMAIndicator.calculateEma [] [YVal.num l1] 1 EMApercent
          stA.prevEMAlevel2 (-1) stA.sma).2
        let stB :=
          { stA with
            level1 := l1
            level2 := l2
            emaLevel2Values := stA.emaLevel2Values ++ [l2]
            prevEMAlevel2 := some l2 }
        if i < 3 * period then { stB with acc := stB.acc + stB.level2 }
        else
          let stC := if i = 3 * period then { stB with sma := stB.acc / (period : ℚ) } else stB
          let stD :=
            if i = yValLen + 1 then
              let l1x := stC.emaValues.getD (i - period - 1) 0
              let l2x := (EMAIndicator.calculateEma [] [YVal.num l1x] 1 EMApercent
                stC.prevEMAlevel2 (-1) stC.sma).2
              { stC with
                level1 := l1x
                level2 := l2x
                emaLevel2Values := stC.emaLevel2Values ++ [l2x] }
            else stC
          let l1f := stD.emaValues.getD (i - period - 2) 0
          let l2f := stD.emaLevel2Values.getD (i - 2 * period - 1) 0
          let l3 := (EMAIndicator.calculateEma [] [YVal.num l2f] 1 EMApercent
            stD.prevLevel3 (-1) stD.sma).2
          let pt := (xVal.getD (i - 3) 0, correctFloat (3 * l1f - 3 * l2f + l3))
          { stD with
            level1 := l1f
            level2 := l2f
            out := stD.out ++ [pt]
            prevLevel3 := some l3 }
    temaLoop period EMApercent index xVal yVal (i + 1) fuel st3

/--
TEMAIndicator.getValues (src/unnamed/part_000, lines 173-308).  Fails
(none, the JS false sentinel, with no partial series) when yData is
shorter than 3*period - 2; otherwise seeds the recurrence with the mean
of the first period points and runs the loop.
-/
def getValues (period : ℕ) (paramsIndex : Option ℕ) (xVal : List ℚ)
    (yVal : List YVal) : Option IndicatorValues :=
  let EMApercent : ℚ := 2 / ((period : ℚ) + 1)
  if yVal.length < 3 * period - 2 then none
  else
    let index : ℤ := if headIsArray yVal then (paramsIndex.getD 0 : ℤ) else -1
    let sma0 := EMAIndicator.accumulatePeriodPoints period index yVal / (period : ℚ)
    let st := temaLoop period EMApercent index xVal yVal period ((yVal.length + 3) - period)
      ⟨none, none, none, sma0, 0, 0, 0, [], [], []⟩
    some ⟨st.out, st.out.map Prod.fst, st.out.map Prod.snd⟩

end TEMAIndicator

/--
C6.  For every positive period p, DEMA getValues fails (returns the
sentinel, with no partial series) exactly when yData has fewer than
2p - 1 entries, and TEMA getValues fails exactly when yData has fewer
than 3p - 2 entries; otherwise each returns a fully formed result
object.
-/
theorem dema_tema_failure_iff (p : ℕ) (_hp : 0 < p) (pIdx : Option ℕ)
    (xs : List ℚ) (ys : List YVal) :
    (DEMAIndicator.getValues p pIdx xs ys = none ↔ ys.length < 2 * p - 1) ∧
    (TEMAIndicator.getValues p pIdx xs ys = none ↔ ys.length < 3 * p - 2) ∧
    (2 * p - 1 ≤ ys.length → ∃ r, DEMAIndicator.getValues p pIdx xs ys = some r) ∧
    (3 * p - 2 ≤ ys.length → ∃ r, TEMAIndicator.getValues p pIdx xs ys = some r) := by
  refine ⟨?_, ?_, ?_, ?_⟩
  · rw [DEMAIndicator.getValues]
    split_ifs with h <;> simp [h]
  · rw [TEMAIndicator.getValues]
    split_ifs with h <;> simp [h]
  · intro h
    rw [DEMAIndicator.getValues, if_neg (by omega)]
    exact ⟨_, rfl⟩
  · intro h
    rw [TEMAIndicator.getValues, if_neg (by omega)]
    exact ⟨_, rfl⟩

/--
Witness for C6 at period 2: a 2-point series is below both minima
(2p - 1 = 3 and 3p - 2 = 4), and the failure conditions evaluate as
stated.
-/
theorem dema_tema_failure_iff_witness :
    ((DEMAIndicator.getValues 2 none [0, 1] (([5, 6] : List ℚ).map YVal.num) = none ↔
        ([5, 6] : List ℚ).length < 2 * 2 - 1) ∧
      (TEMAIndicator.getValues 2 none [0, 1] (([5, 6] : List ℚ).map YVal.num) = none ↔
        ([5, 6] : List ℚ).length < 3 * 2 - 2) ∧
      (2 * 2 - 1 ≤ (([5, 6] : List ℚ).map YVal.num).length →
        ∃ r, DEMAIndicator.getValues 2 none [0, 1] (([5, 6] : List ℚ).map YVal.num) = some r) ∧
      (3 * 2 - 2 ≤ (([5, 6] : List ℚ).map YVal.num).length →
        ∃ r, TEMAIndicator.getValues 2 none [0, 1] (([5, 6] : List ℚ).map YVal.num) = some r)) ∧
    DEMAIndicator.getValues 2 none [0, 1] (([5, 6] : List ℚ).map YVal.num) = none := by
  constructor
  · have h := dema_tema_failure_iff 2 (by norm_num) none [0, 1] (([5, 6] : List ℚ).map YVal.num)
    simpa using h
  · rw [DEMAIndicator.getValues]
    norm_num

/-- The EMA recurrence loop, one calculateEma step per remaining fuel
unit, i running over input indices, threading the previous EMA. -/
def emaLoop (pct : ℚ) (index : ℤ) (sma : ℚ) (xVal : List ℚ) (yVal : List YVal) :
    ℕ → Option ℚ → ℕ → List (ℚ × ℚ)
  | _, _, 0 => []
  | i, prev, fuel + 1 =>
    let pt := EMAIndicator.calculateEma xVal yVal i pct prev index sma
    pt :: emaLoop pct index sma xVal yVal (i + 1) (some pt.2) fuel

namespace EMAIndicator

/-- Modelled from the spec: EMAIndicator.prototype.getValues (the EMA
indicator file is not under src/).  Spec 4.3: failure sentinel when
fewer than period points are available; otherwise one point per input
index from period - 1 on, seeded by the SMA of the first period points
(via the prevEMA = undefined case of calculateEma) and following the
recurrence with factor 2/(period + 1) afterwards. -/
def getValues (period : ℕ) (paramsIndex : Option ℕ) (xVal : List ℚ)
    (yVal : List YVal) : Option IndicatorValues :=
  if yVal.length < period then none
  else
    let index : ℤ := if headIsArray yVal then (paramsIndex.getD 0 : ℤ) else -1
    let pct : ℚ := 2 / ((period : ℚ) + 1)
    let sma0 := accumulatePeriodPoints period index yVal / (period : ℚ)
    let pts := emaLoop pct index sma0 xVal yVal period none ((yVal.length + 1) - period)
    some ⟨pts, pts.map Prod.fst, pts.map Prod.snd⟩

end EMAIndicator

namespace PPOIndicator

/--
PPOIndicator.getValues (src/unnamed/part_001, lines 390-452).  Rejects
a periods array that does not have exactly two increasing entries
(error message plus the false sentinel), computes the short- and
long-period EMAs, fails if either fails, and otherwise pushes
correctFloat((SPE[i + offset] - LPE[i]) / LPE[i] * 100) at each long
EMA x position, offset being the difference of the periods.
-/
def getValues (periods : List ℕ) (paramsIndex : Option ℕ) (xVal : List ℚ)
    (yVal : List YVal) : Option IndicatorValues :=
  if periods.length ≠ 2 ∨ periods.getD 1 0 ≤ periods.getD 0 0 then none
  else
    match EMAIndicator.getValues (periods.getD 0 0) paramsIndex xVal yVal,
        EMAIndicator.getValues (periods.getD 1 0) paramsIndex xVal yVal with
    | some SPE, some LPE =>
      let offset := periods.getD 1 0 - periods.getD 0 0
      let L := (List.range LPE.yData.length).map (fun i =>
        (LPE.xData.getD i 0,
          correctFloat ((SPE.yData.getD (i + offset) 0 - LPE.yData.getD i 0) /
            LPE.yData.getD i 0 * 100)))
      some ⟨L, L.map Prod.fst, L.map Prod.snd⟩
    | _, _ => none

end PPOIndicator

/-- First element of a nonempty rational list folded with min (JS reduce
with Math.min); 0 for the empty list, which no caller reaches. -/
def listMinD : List ℚ → ℚ
  | [] => 0
  | a :: t => t.foldl min a

/-- First element of a nonempty rational list folded with max. -/
def listMaxD : List ℚ → ℚ
  | [] => 0
  | a :: t => t.foldl max a

theorem foldl_min_le (t : List ℚ) : ∀ a x : ℚ, x = a ∨ x ∈ t → t.foldl min a ≤ x := by
  induction t with
  | nil => intro a x h; simp at h; simp [h]
  | cons b t ih =>
    intro a x h
    rcases h with h | h
    · subst h
      exact le_trans (ih (min x b) (min x b) (Or.inl rfl)) (min_le_left _ _)
    · rcases List.mem_cons.1 h with h | h
      · subst h
        exact le_trans (ih (min a x) (min a x) (Or.inl rfl)) (min_le_right _ _)
      · exact ih (min a b) x (Or.inr h)

theorem le_foldl_max (t : List ℚ) : ∀ a x : ℚ, x = a ∨ x ∈ t → x ≤ t.foldl max a := by
  induction t with
  | nil => intro a x h; simp at h; simp [h]
  | cons b t ih =>
    intro a x h
    rcases h with h | h
    · subst h
      exact le_trans (le_max_left _ _) (ih (max x b) (max x b) (Or.inl rfl))
    · rcases List.mem_cons.1 h with h | h
      · subst h
        exact le_trans (le_max_right _ _) (ih (max a x) (max a x) (Or.inl rfl))
      · exact ih (max a b) x (Or.inr h)

theorem listMinD_le_of_mem (l : List ℚ) (x : ℚ) (h : x ∈ l) : listMinD l ≤ x := by
  rcases l with _ | ⟨a, t⟩
  · simp at h
  · exact foldl_min_le t a x (by simpa using List.mem_cons.1 h)

theorem le_listMaxD_of_mem (l : List ℚ) (x : ℚ) (h : x ∈ l) : x ≤ listMaxD l := by
  rcases l with _ | ⟨a, t⟩
  · simp at h
  · exact le_foldl_max t a x (by simpa using List.mem_cons.1 h)

/-- Modelled from the spec: reduceArrayMixin.getArrayExtremes
(mixins/reduce-array, not under src/), returning the pair
[lowestLow, highestHigh] over the window: the minimum of the row
component at minIndex and the maximum of the row component at
maxIndex. -/
def getArrayExtremes (arr : List YVal) (minIndex maxIndex : ℕ) : ℚ × ℚ :=
  (listMinD (arr.map (getY (minIndex : ℤ))), listMaxD (arr.map (getY (maxIndex : ℤ))))

/-- JS arr.slice(-n): the last n elements; JS -0 is 0, so n = 0 keeps
the whole array. -/
def jsSliceLast {α : Type} (n : ℕ) (l : List α) : List α :=
  if n = 0 then l else l.drop (l.length - n)

/-- A yData row [K, D] built by the stochastic indicator (D still null
until smoothed). -/
def kdRow (r : ℚ × Option ℚ) : YVal := .arr [some r.1, r.2]

/-- Result object of StochasticIndicator.getValues: values rows are
[x, K, D] and yData rows are [K, D], D possibly null. -/
structure StochasticValues where
  values : List (ℚ × ℚ × Option ℚ)
  xData : List ℚ
  yData : List (ℚ × Option ℚ)
  deriving DecidableEq

/-- Mutable locals of the stochastic getValues loop.  A pushed yData row
[K, null] is mutated to [K, D] at the end of the same iteration, so the
accumulated yData rows carry their final D directly; the temporary
[K, null] state is only visible to the inner SMA call, which the loop
body reproduces. -/
structure StochState where
  so : List (ℚ × ℚ × Option ℚ)
  xData : List ℚ
  yData : List (ℚ × Option ℚ)
  d : Option ℚ

namespace StochasticIndicator

/--
The loop of StochasticIndicator.getValues
(src/ts/indicators/stochastic.src.ts, lines 217-243), i running from
periodK - 1 while i < yValLen.  Per iteration: slice the %K window
(slice(i - periodK + 1, i + 1), which holds exactly periodK rows for
every executed iteration), read [lowestLow, highestHigh] with
getArrayExtremes(sliced, 2, 1), form
K = (close - lowestLow) / (highestHigh - lowestLow) * 100 with
close = yVal[i][3], push x and [K, null], and once
i >= (periodK-1) + (periodD-1) smooth %D as SMA.getValues over the last
periodD x values and [K, D] rows (the current row still [K, null]),
reading yData[0] of that call; the D variable persists across
iterations.  The pushed SO row is [x, K, D] and the yData row is
mutated to [K, D].
-/
def stochStep (periodK periodD : ℕ) (xVal : List ℚ) (yVal : List YVal) (i : ℕ)
    (st : StochState) : StochState :=
  let slicedY := (yVal.drop (i + 1 - periodK)).take periodK
  let ext := getArrayExtremes slicedY 2 1
  let LL := ext.1
  let CL := getY 3 (yVal.getD i (.num 0)) - LL
  let HL := ext.2 - LL
  let K := CL / HL * 100
  let xData1 := st.xData ++ [xVal.getD i 0]
  let yTmp := st.yData ++ [(K, none)]
  let d1 :=
    if (periodK - 1) + (periodD - 1) ≤ i then
      match SMAIndicator.getValues periodD none (jsSliceLast periodD xData1)
          ((jsSliceLast periodD yTmp).map kdRow) with
      | some pts => pts.yData.head?
      | none => none
    else st.d
  ⟨st.so ++ [(xVal.getD i 0, K, d1)], xData1, st.yData ++ [(K, d1)], d1⟩

def stochLoop (periodK periodD : ℕ) (xVal : List ℚ) (yVal : List YVal) :
    ℕ → StochState → ℕ → StochState
  | _, st, 0 => st
  | i, st, fuel + 1 =>
    stochLoop periodK periodD xVal yVal (i + 1)
      (stochStep periodK periodD xVal yVal i st) fuel

/-- The JS acceptance test on the first row: it must be an array of
length 4 (OHLC). -/
def firstRowIsOHLC : List YVal → Bool
  | .arr l :: _ => decide (l.length = 4)
  | _ => false

/--
StochasticIndicator.getValues
(src/ts/indicators/stochastic.src.ts, lines 171-250).  periods holds
[periodK, periodD]; the call fails (none, the JS false sentinel) when
yData is shorter than periodK, when its first entry is not an array, or
when that array does not have 4 components; otherwise the loop runs
from index periodK - 1 to the end.
-/
def getValues (periods : List ℕ) (xVal : List ℚ) (yVal : List YVal) :
    Option StochasticValues :=
  let periodK := periods.getD 0 0
  let periodD := periods.getD 1 0
  if yVal.length < periodK ∨ firstRowIsOHLC yVal = false then none
  else
    let st := stochLoop periodK periodD xVal yVal (periodK - 1) ⟨[], [], [], none⟩
      (yVal.length - (periodK - 1))
    some ⟨st.so, st.xData, st.yData⟩

/-- The %K value of the j-th produced point: input index
periodK - 1 + j, window of periodK rows starting at j. -/
def kValue (periodK : ℕ) (yVal : List YVal) (j : ℕ) : ℚ :=
  let w := (yVal.drop j).take periodK
  let ext := getArrayExtremes w 2 1
  (getY 3 (yVal.getD (periodK - 1 + j) (.num 0)) - ext.1) / (ext.2 - ext.1) * 100

/-- The %D value of the j-th produced point: null for the first
periodD - 1 points, afterwards the mean of the last periodD %K
values. -/
def dValue (periodK periodD : ℕ) (yVal : List YVal) (j : ℕ) : Option ℚ :=
  if j + 1 < periodD then none
  else some ((((List.range periodD).map
    (fun u => kValue periodK yVal (j + 1 - periodD + u))).sum) / (periodD : ℚ))

end StochasticIndicator

theorem drop_map_range (f : ℕ → ℚ) (m k : ℕ) :
    ((List.range (m + k)).map f).drop m = (List.range k).map (fun u => f (m + u)) := by
  rw [List.range_add, List.map_append]
  have h1 : ((List.range m).map f).length = m := by simp
  rw [List.drop_left' h1, List.map_map]
  rfl

theorem windowSum_all (l : List ℚ) (m : ℕ) (h : l.length ≤ m) : windowSum l 0 m = l.sum := by
  rw [windowSum, List.drop_zero, List.take_of_length_le h]

theorem map_getY_kdRow (l : List (ℚ × Option ℚ)) :
    (l.map kdRow).map (getY 0) = l.map Prod.fst := by
  induction l with
  | nil => rfl
  | cons a t ih => simp [kdRow, getY, ih]

/--
The inner SMA call of the stochastic loop: applied with period pD to
exactly pD rows of [K, D] shape (index 0 selected since the rows are
arrays and no index parameter is passed), it returns the single point
whose y value is the mean of the K components.
-/
theorem sma_on_kd (pD : ℕ) (hD : 1 ≤ pD) (xs : List ℚ) (rows : List (ℚ × Option ℚ))
    (hxs : pD ≤ xs.length) (hrows : rows.length = pD) :
    SMAIndicator.getValues pD none xs (rows.map kdRow) =
      some ⟨[(xs.getD (pD - 1) 0, (rows.map Prod.fst).sum / (pD : ℚ))],
        [xs.getD (pD - 1) 0], [(rows.map Prod.fst).sum / (pD : ℚ)]⟩ := by
  obtain ⟨q, rfl⟩ : ∃ q, pD = q + 1 := ⟨pD - 1, by omega⟩
  rcases rows with _ | ⟨a, t⟩
  · simp at hrows
  · rw [smaGetValues_eq q none xs ((a :: t).map kdRow) (by omega)]
    have ht : t.length = q := by simpa using hrows
    have hsl : smaList q none xs ((a :: t).map kdRow) =
        [(xs.getD q 0, ((a :: t).map Prod.fst).sum / ((q + 1 : ℕ) : ℚ))] := by
      rw [smaList]
      have hh : headIsArray ((a :: t).map kdRow) = true := rfl
      rw [hh, if_pos rfl]
      have hvals3 : ((a :: t).map kdRow).map (getY (((none : Option ℕ).getD 0 : ℕ) : ℤ)) =
          (a :: t).map Prod.fst := by
        simpa using map_getY_kdRow (a :: t)
      rw [hvals3]
      have hlen2 : ((a :: t).map kdRow).length - q = 1 := by simp [ht]
      rw [hlen2]
      simp [List.range_succ, windowSum_all, ht]
    rw [hsl, show q + 1 - 1 = q from by omega]
    simp

namespace StochasticIndicator

/-- The x values accumulated after j produced points. -/
def xSpec (periodK : ℕ) (xVal : List ℚ) (j : ℕ) : List ℚ :=
  (List.range j).map (fun u => xVal.getD (periodK - 1 + u) 0)

/-- The yData rows accumulated after j produced points. -/
def ySpec (periodK periodD : ℕ) (yVal : List YVal) (j : ℕ) : List (ℚ × Option ℚ) :=
  (List.range j).map (fun u => (kValue periodK yVal u, dValue periodK periodD yVal u))

/-- The SO rows accumulated after j produced points. -/
def soSpec (periodK periodD : ℕ) (xVal : List ℚ) (yVal : List YVal) (j : ℕ) :
    List (ℚ × ℚ × Option ℚ) :=
  (List.range j).map (fun u =>
    (xVal.getD (periodK - 1 + u) 0, kValue periodK yVal u, dValue periodK periodD yVal u))

/-- The D variable after j produced points (it persists from the
previous iteration). -/
def dPrev (periodK periodD : ℕ) (yVal : List YVal) : ℕ → Option ℚ
  | 0 => none
  | u + 1 => dValue periodK periodD yVal u

theorem xSpec_succ (periodK : ℕ) (xVal : List ℚ) (j : ℕ) :
    xSpec periodK xVal (j + 1) = xSpec periodK xVal j ++ [xVal.getD (periodK - 1 + j) 0] := by
  rw [xSpec, xSpec, List.range_succ, List.map_append]
  rfl

theorem ySpec_succ (periodK periodD : ℕ) (yVal : List YVal) (j : ℕ) :
    ySpec periodK periodD yVal (j + 1) =
      ySpec periodK periodD yVal j ++
        [(kValue periodK yVal j, dValue periodK periodD yVal j)] := by
  rw [ySpec, ySpec, List.range_succ, List.map_append]
  rfl

theorem soSpec_succ (periodK periodD : ℕ) (xVal : List ℚ) (yVal : List YVal) (j : ℕ) :
    soSpec periodK periodD xVal yVal (j + 1) =
      soSpec periodK periodD xVal yVal j ++
        [(xVal.getD (periodK - 1 + j) 0, kValue periodK yVal j,
          dValue periodK periodD yVal j)] := by
  rw [soSpec, soSpec, List.range_succ, List.map_append]
  rfl

theorem mapfst_ySpec (periodK periodD : ℕ) (yVal : List YVal) (j : ℕ) :
    (ySpec periodK periodD yVal j).map Prod.fst =
      (List.range j).map (kValue periodK yVal) := by
  rw [ySpec, List.map_map]
  rfl

/--
One iteration of the stochastic loop carries the specification state at
j produced points to the specification state at j + 1: the computed K
is kValue j and the smoothed D is dValue j.
-/
theorem stochStep_spec (periodK periodD : ℕ) (hK : 1 ≤ periodK) (hD : 1 ≤ periodD)
    (xVal : List ℚ) (yVal : List YVal) (j : ℕ) :
    stochStep periodK periodD xVal yVal (periodK - 1 + j)
      ⟨soSpec periodK periodD xVal yVal j, xSpec periodK xVal j,
        ySpec periodK periodD yVal j, dPrev periodK periodD yVal j⟩ =
      ⟨soSpec periodK periodD xVal yVal (j + 1), xSpec periodK xVal (j + 1),
        ySpec periodK periodD yVal (j + 1), dPrev periodK periodD yVal (j + 1)⟩ := by
  have e1 : periodK - 1 + j + 1 - periodK = j := by omega
  have hKval : kValue periodK yVal j =
      (getY 3 (yVal.getD (periodK - 1 + j) (.num 0)) -
        (getArrayExtremes ((yVal.drop j).take periodK) 2 1).1) /
      ((getArrayExtremes ((yVal.drop j).take periodK) 2 1).2 -
        (getArrayExtremes ((yVal.drop j).take periodK) 2 1).1) * 100 := rfl
  simp only [stochStep, e1, ← hKval]
  by_cases hcond : (periodK - 1) + (periodD - 1) ≤ periodK - 1 + j
  · rw [if_pos hcond]
    have hjD : periodD ≤ j + 1 := by omega
    have hD0 : periodD ≠ 0 := by omega
    have hxlen : (xSpec periodK xVal j ++ [xVal.getD (periodK - 1 + j) 0]).length = j + 1 := by
      simp [xSpec]
    have hylen : (ySpec periodK periodD yVal j ++ [(kValue periodK yVal j, none)]).length
        = j + 1 := by
      simp [ySpec]
    have hxs : periodD ≤ (jsSliceLast periodD
        (xSpec periodK xVal j ++ [xVal.getD (periodK - 1 + j) 0])).length := by
      rw [jsSliceLast, if_neg hD0, List.length_drop, hxlen]
      omega
    have hrows : (jsSliceLast periodD
        (ySpec periodK periodD yVal j ++ [(kValue periodK yVal j, none)])).length
        = periodD := by
      rw [jsSliceLast, if_neg hD0, List.length_drop, hylen]
      omega
    rw [sma_on_kd periodD hD _ _ hxs hrows]
    have hksum : ((jsSliceLast periodD
        (ySpec periodK periodD yVal j ++ [(kValue periodK yVal j, none)])).map Prod.fst)
        = (List.range periodD).map (fun u => kValue periodK yVal (j + 1 - periodD + u)) := by
      rw [jsSliceLast, if_neg hD0, List.map_drop, List.map_append, mapfst_ySpec]
      have h2 : (List.range j).map (kValue periodK yVal) ++
          ([(kValue periodK yVal j, (none : Option ℚ))].map Prod.fst) =
          (List.range (j + 1)).map (kValue periodK yVal) := by
        rw [List.range_succ, List.map_append]
        rfl
      rw [h2, hylen]
      have h3 : j + 1 = (j + 1 - periodD) + periodD := by omega
      rw [show (List.range (j + 1)).map (kValue periodK yVal) =
          (List.range ((j + 1 - periodD) + periodD)).map (kValue periodK yVal) from by rw [← h3]]
      exact drop_map_range (kValue periodK yVal) (j + 1 - periodD) periodD
    rw [hksum]
    have hdval : dValue periodK periodD yVal j =
        some ((((List.range periodD).map
          (fun u => kValue periodK yVal (j + 1 - periodD + u))).sum) / (periodD : ℚ)) := by
      rw [dValue, if_neg (by omega)]
    simp only [List.head?_cons, Option.some.injEq]
    rw [xSpec_succ, ySpec_succ, soSpec_succ, ← hdval,
      show dPrev periodK periodD yVal (j + 1) = dValue periodK periodD yVal j from rfl]
  · rw [if_neg hcond]
    have h1 : dValue periodK periodD yVal j = none := by
      rw [dValue, if_pos (by omega)]
    have h2 : dPrev periodK periodD yVal j = none := by
      rcases j with _ | u
      · rfl
      · show dValue periodK periodD yVal u = none
        rw [dValue, if_pos (by omega)]
    rw [h2, xSpec_succ, ySpec_succ, soSpec_succ, h1,
      show dPrev periodK periodD yVal (j + 1) = dValue periodK periodD yVal j from rfl, h1]

end StochasticIndicator

namespace StochasticIndicator

theorem stochLoop_spec (periodK periodD : ℕ) (hK : 1 ≤ periodK) (hD : 1 ≤ periodD)
    (xVal : List ℚ) (yVal : List YVal) :
    ∀ (fuel j : ℕ),
      stochLoop periodK periodD xVal yVal (periodK - 1 + j)
        ⟨soSpec periodK periodD xVal yVal j, xSpec periodK xVal j,
          ySpec periodK periodD yVal j, dPrev periodK periodD yVal j⟩ fuel =
      ⟨soSpec periodK periodD xVal yVal (j + fuel), xSpec periodK xVal (j + fuel),
        ySpec periodK periodD yVal (j + fuel), dPrev periodK periodD yVal (j + fuel)⟩ := by
  intro fuel
  induction fuel with
  | zero => intro j; rw [stochLoop]; rfl
  | succ fuel ih =>
    intro j
    rw [stochLoop, stochStep_spec periodK periodD hK hD xVal yVal j]
    have h2 := ih (j + 1)
    rw [show j + 1 + fuel = j + (fuel + 1) from by omega] at h2
    exact h2

/--
Closed form of StochasticIndicator.getValues on accepted input: one
point per input index from periodK - 1 on, the j-th carrying
[x, kValue j, dValue j].
-/
theorem getValues_spec (periodK periodD n : ℕ) (hK : 1 ≤ periodK) (hD : 1 ≤ periodD)
    (xs : List ℚ) (yVal : List YVal) (hlen : yVal.length = n) (hn : periodK ≤ n)
    (hohlc : firstRowIsOHLC yVal = true) :
    getValues [periodK, periodD] xs yVal =
      some ⟨soSpec periodK periodD xs yVal (n - periodK + 1),
        xSpec periodK xs (n - periodK + 1),
        ySpec periodK periodD yVal (n - periodK + 1)⟩ := by
  rw [getValues]
  have hguard : ¬(yVal.length < [periodK, periodD].getD 0 0 ∨
      firstRowIsOHLC yVal = false) := by
    simp [hohlc]
    omega
  rw [if_neg hguard]
  have h0 := stochLoop_spec periodK periodD hK hD xs yVal (yVal.length - (periodK - 1)) 0
  have hinit : (⟨soSpec periodK periodD xs yVal 0, xSpec periodK xs 0,
      ySpec periodK periodD yVal 0, dPrev periodK periodD yVal 0⟩ : StochState) =
      ⟨[], [], [], none⟩ := rfl
  rw [hinit] at h0
  have hcount : 0 + (yVal.length - (periodK - 1)) = n - periodK + 1 := by omega
  rw [hcount] at h0
  have hidx : periodK - 1 + 0 = periodK - 1 := rfl
  rw [hidx] at h0
  rw [show ([periodK, periodD] : List ℕ).getD 0 0 = periodK from rfl,
    show ([periodK, periodD] : List ℕ).getD 1 0 = periodD from rfl, h0]

end StochasticIndicator

theorem getD_map_range' {α : Type} (d : α) (c j : ℕ) (g : ℕ → α) (h : j < c) :
    ((List.range c).map g).getD j d = g j := by
  simp [List.getD_eq_getElem?_getD, List.getElem?_map, List.getElem?_range h]

/-- An OHLC row as a yData entry. -/
def toArr (r : List ℚ) : YVal := .arr (r.map some)

theorem getY_toArr (k : ℕ) (r : List ℚ) : getY (k : ℤ) (toArr r) = r.getD k 0 := by
  simp only [toArr, getY, Int.toNat_natCast, List.getD_eq_getElem?_getD, List.getElem?_map]
  rcases h : r[k]? with _ | q <;> simp [h]

/--
C10.  For every accepted OHLC input of length n and periods
[periodK, periodD], StochasticIndicator.getValues returns exactly
n - periodK + 1 points, the j-th aligned to input index
periodK - 1 + j; the smoothed %D slot is null for the first
periodD - 1 returned points and from the point at input index
(periodK - 1) + (periodD - 1) onward equals the mean of the last
periodD computed %K values.
-/
theorem stochastic_output_shape (pK pD n : ℕ) (hK : 1 ≤ pK) (hD : 1 ≤ pD)
    (xs : List ℚ) (rows : List (List ℚ)) (hlen : rows.length = n) (hn : pK ≤ n)
    (h4 : ∀ r ∈ rows, r.length = 4) :
    ∃ res, StochasticIndicator.getValues [pK, pD] xs (rows.map toArr) = some res ∧
      res.values.length = n - pK + 1 ∧
      res.xData.length = n - pK + 1 ∧
      res.yData.length = n - pK + 1 ∧
      (∀ j < n - pK + 1, res.xData.getD j 0 = xs.getD (pK - 1 + j) 0) ∧
      (∀ j < n - pK + 1, (res.yData.getD j (0, none)).1 =
        StochasticIndicator.kValue pK (rows.map toArr) j) ∧
      (∀ j < n - pK + 1, j + 1 < pD → (res.yData.getD j (0, none)).2 = none) ∧
      (∀ j < n - pK + 1, pD ≤ j + 1 →
        (res.yData.getD j (0, none)).2 =
          some ((((List.range pD).map
            (fun u => StochasticIndicator.kValue pK (rows.map toArr) (j + 1 - pD + u))).sum) /
            (pD : ℚ))) := by
  have hohlc : StochasticIndicator.firstRowIsOHLC (rows.map toArr) = true := by
    rcases rows with _ | ⟨r, t⟩
    · simp at hlen
      omega
    · have hr : r.length = 4 := h4 r (List.mem_cons_self r t)
      simp [StochasticIndicator.firstRowIsOHLC, toArr, hr]
  have hlen2 : (rows.map toArr).length = n := by simp [hlen]
  refine ⟨_, StochasticIndicator.getValues_spec pK pD n hK hD xs (rows.map toArr)
    hlen2 hn hohlc, ?_, ?_, ?_, ?_, ?_, ?_, ?_⟩
  · simp [StochasticIndicator.soSpec]
  · simp [StochasticIndicator.xSpec]
  · simp [StochasticIndicator.ySpec]
  · intro j hj
    rw [StochasticIndicator.xSpec, getD_map_range' _ _ _ _ hj]
  · intro j hj
    rw [StochasticIndicator.ySpec, getD_map_range' _ _ _ _ hj]
  · intro j hj hlt
    rw [StochasticIndicator.ySpec, getD_map_range' _ _ _ _ hj]
    show StochasticIndicator.dValue pK pD (rows.map toArr) j = none
    rw [StochasticIndicator.dValue, if_pos hlt]
  · intro j hj hge
    rw [StochasticIndicator.ySpec, getD_map_range' _ _ _ _ hj]
    show StochasticIndicator.dValue pK pD (rows.map toArr) j = _
    rw [StochasticIndicator.dValue, if_neg (by omega)]

/--
Witness for C10 at periods [2, 2] over three OHLC rows: two points are
produced, the first %D is null and the second is the mean of the two
%K values.
-/
theorem stochastic_output_shape_witness :
    (∃ res, StochasticIndicator.getValues [2, 2] [10, 11, 12]
        ([[0, 4, 0, 2], [0, 4, 0, 3], [0, 4, 0, 1]].map toArr) = some res ∧
      res.values.length = 3 - 2 + 1 ∧
      res.xData.length = 3 - 2 + 1 ∧
      res.yData.length = 3 - 2 + 1 ∧
      (∀ j < 3 - 2 + 1, res.xData.getD j 0 = [(10 : ℚ), 11, 12].getD (2 - 1 + j) 0) ∧
      (∀ j < 3 - 2 + 1, (res.yData.getD j (0, none)).1 =
        StochasticIndicator.kValue 2 ([[0, 4, 0, 2], [0, 4, 0, 3], [0, 4, 0, 1]].map toArr) j) ∧
      (∀ j < 3 - 2 + 1, j + 1 < 2 → (res.yData.getD j (0, none)).2 = none) ∧
      (∀ j < 3 - 2 + 1, 2 ≤ j + 1 →
        (res.yData.getD j (0, none)).2 =
          some ((((List.range 2).map
            (fun u => StochasticIndicator.kValue 2
              ([[0, 4, 0, 2], [0, 4, 0, 3], [0, 4, 0, 1]].map toArr) (j + 1 - 2 + u))).sum) /
            (2 : ℚ)))) ∧
    (StochasticIndicator.getValues [2, 2] [10, 11, 12]
        ([[0, 4, 0, 2], [0, 4, 0, 3], [0, 4, 0, 1]].map toArr)).map
      (fun res => res.yData) = some [(75, none), (25, some 50)] := by
  constructor
  · exact stochastic_output_shape 2 2 3 (by norm_num) (by norm_num) [10, 11, 12]
      [[0, 4, 0, 2], [0, 4, 0, 3], [0, 4, 0, 1]] rfl (by norm_num) (by
        intro r hr
        simp at hr
        rcases hr with h | h | h <;> simp [h])
  · norm_num [StochasticIndicator.getValues, StochasticIndicator.firstRowIsOHLC,
      StochasticIndicator.stochLoop, StochasticIndicator.stochStep, toArr,
      getArrayExtremes, listMinD, listMaxD, getY, jsSliceLast, kdRow,
      SMAIndicator.getValues, smaLoop, headIsArray, min_def, max_def, List.getD,
      show (3 : ℤ).toNat = 3 from rfl, show (2 : ℤ).toNat = 2 from rfl,
      show (1 : ℤ).toNat = 1 from rfl, show (0 : ℤ).toNat = 0 from rfl]

/--
When every OHLC row places its close between its low and its high, the
%K value of any produced point lies in [0, 100] provided the highest
high of its window strictly exceeds the lowest low.
-/
theorem kValue_bounds (pK : ℕ) (hK : 1 ≤ pK) (rows : List (List ℚ)) (j : ℕ)
    (hjn : pK - 1 + j < rows.length)
    (hvalid : ∀ r ∈ rows, r.getD 2 0 ≤ r.getD 3 0 ∧ r.getD 3 0 ≤ r.getD 1 0)
    (hlt : (getArrayExtremes (((rows.map toArr).drop j).take pK) 2 1).1 <
      (getArrayExtremes (((rows.map toArr).drop j).take pK) 2 1).2) :
    0 ≤ StochasticIndicator.kValue pK (rows.map toArr) j ∧
      StochasticIndicator.kValue pK (rows.map toArr) j ≤ 100 := by
  have hsome : rows[pK - 1 + j]? = some (rows.getD (pK - 1 + j) []) := by
    simp [List.getD_eq_getElem?_getD, List.getElem?_eq_getElem hjn]
  set r := rows.getD (pK - 1 + j) [] with hr
  have hrmem : r ∈ rows := List.getElem?_mem hsome
  have hsome2 : (rows.map toArr)[pK - 1 + j]? = some (toArr r) := by
    rw [List.getElem?_map, hsome]
    rfl
  have hwin : (((rows.map toArr).drop j).take pK)[pK - 1]? = some (toArr r) := by
    rw [List.getElem?_take, if_pos (by omega), List.getElem?_drop,
      show j + (pK - 1) = pK - 1 + j from by omega, hsome2]
  have hmem : toArr r ∈ ((rows.map toArr).drop j).take pK := List.getElem?_mem hwin
  have hgetD : (rows.map toArr).getD (pK - 1 + j) (.num 0) = toArr r := by
    rw [List.getD_eq_getElem?_getD, hsome2]
    rfl
  obtain ⟨hlc, hch⟩ := hvalid r hrmem
  have hLL : (getArrayExtremes (((rows.map toArr).drop j).take pK) 2 1).1 ≤ r.getD 2 0 := by
    rw [getArrayExtremes]
    have hm2 : getY ((2 : ℕ) : ℤ) (toArr r) ∈
        (((rows.map toArr).drop j).take pK).map (getY ((2 : ℕ) : ℤ)) :=
      List.mem_map.2 ⟨_, hmem, rfl⟩
    have h2 := listMinD_le_of_mem _ _ hm2
    rwa [getY_toArr] at h2
  have hHH : r.getD 1 0 ≤ (getArrayExtremes (((rows.map toArr).drop j).take pK) 2 1).2 := by
    rw [getArrayExtremes]
    have hm1 : getY ((1 : ℕ) : ℤ) (toArr r) ∈
        (((rows.map toArr).drop j).take pK).map (getY ((1 : ℕ) : ℤ)) :=
      List.mem_map.2 ⟨_, hmem, rfl⟩
    have h2 := le_listMaxD_of_mem _ _ hm1
    rwa [getY_toArr] at h2
  have hclose : getY 3 ((rows.map toArr).getD (pK - 1 + j) (.num 0)) = r.getD 3 0 := by
    rw [hgetD, show (3 : ℤ) = ((3 : ℕ) : ℤ) from rfl, getY_toArr]
  rw [StochasticIndicator.kValue]
  set a := (getArrayExtremes (((rows.map toArr).drop j).take pK) 2 1).1 with ha
  set b := (getArrayExtremes (((rows.map toArr).drop j).take pK) 2 1).2 with hb
  rw [hclose]
  set c := r.getD 3 0 with hc
  have hca : 0 ≤ c - a := by
    have : a ≤ c := le_trans hLL hlc
    linarith
  have hcb : c - a ≤ b - a := by
    have : c ≤ b := le_trans hch hHH
    linarith
  have hba : 0 < b - a := by linarith
  constructor
  · have : 0 ≤ (c - a) / (b - a) := div_nonneg hca (le_of_lt hba)
    positivity
  · have h1 : (c - a) / (b - a) ≤ 1 := (div_le_one hba).2 hcb
    calc (c - a) / (b - a) * 100 ≤ 1 * 100 :=
          mul_le_mul_of_nonneg_right h1 (by norm_num)
      _ = 100 := by norm_num

/--
C5 counterexample.  The input periods [1,1], xData [0],
yData [[0,1,0,5]] (open 0, high 1, low 2nd 0, close 5) is accepted by
StochasticIndicator.getValues (length 1 >= periodK 1, a 4-component
row), the highest high 1 strictly exceeds the lowest low 0 on the only
window, yet the produced %K value is 500, outside [0, 100]: the code
never checks that the close lies between the low and the high.
-/
theorem stochastic_k_counterexample :
    (StochasticIndicator.getValues [1, 1] [0] [toArr [0, 1, 0, 5]]).map
      (fun res => res.yData.map Prod.fst) = some [500] ∧
    (getArrayExtremes (([toArr [0, 1, 0, 5]].drop 0).take 1) 2 1).1 <
      (getArrayExtremes (([toArr [0, 1, 0, 5]].drop 0).take 1) 2 1).2 ∧
    ¬((500 : ℚ) ≤ 100) := by
  refine ⟨?_, ?_, by norm_num⟩ <;>
    norm_num [StochasticIndicator.getValues, StochasticIndicator.firstRowIsOHLC,
      StochasticIndicator.stochLoop, StochasticIndicator.stochStep, toArr,
      getArrayExtremes, listMinD, listMaxD, getY, jsSliceLast, kdRow,
      SMAIndicator.getValues, smaLoop, headIsArray, min_def, max_def, List.getD,
      show (3 : ℤ).toNat = 3 from rfl, show (2 : ℤ).toNat = 2 from rfl,
      show (1 : ℤ).toNat = 1 from rfl, show (0 : ℤ).toNat = 0 from rfl]

/--
C5 (amended).  For every accepted OHLC input whose rows are valid OHLC
rows (low <= close <= high), every produced %K value lies in [0, 100]
whenever the highest high of its window strictly exceeds the lowest
low.
-/
theorem stochastic_k_in_range (pK pD n : ℕ) (hK : 1 ≤ pK) (hD : 1 ≤ pD)
    (xs : List ℚ) (rows : List (List ℚ)) (hlen : rows.length = n) (hn : pK ≤ n)
    (h4 : ∀ r ∈ rows, r.length = 4)
    (hvalid : ∀ r ∈ rows, r.getD 2 0 ≤ r.getD 3 0 ∧ r.getD 3 0 ≤ r.getD 1 0) :
    ∃ res, StochasticIndicator.getValues [pK, pD] xs (rows.map toArr) = some res ∧
      ∀ j < n - pK + 1,
        (getArrayExtremes (((rows.map toArr).drop j).take pK) 2 1).1 <
          (getArrayExtremes (((rows.map toArr).drop j).take pK) 2 1).2 →
        0 ≤ (res.yData.getD j (0, none)).1 ∧ (res.yData.getD j (0, none)).1 ≤ 100 := by
  have hohlc : StochasticIndicator.firstRowIsOHLC (rows.map toArr) = true := by
    rcases rows with _ | ⟨r, t⟩
    · simp at hlen
      omega
    · have hr : r.length = 4 := h4 r (List.mem_cons_self r t)
      simp [StochasticIndicator.firstRowIsOHLC, toArr, hr]
  have hlen2 : (rows.map toArr).length = n := by simp [hlen]
  refine ⟨_, StochasticIndicator.getValues_spec pK pD n hK hD xs (rows.map toArr)
    hlen2 hn hohlc, ?_⟩
  intro j hj hlt
  rw [StochasticIndicator.ySpec, getD_map_range' _ _ _ _ hj]
  exact kValue_bounds pK hK rows j (by omega) hvalid hlt

/--
Witness for the amended C5 at periods [1, 1] over the single valid OHLC
row [0, 2, 0, 1]: the window has highest high 2 > lowest low 0 and the
%K value 50 lies in [0, 100].
-/
theorem stochastic_k_in_range_witness :
    (∃ res, StochasticIndicator.getValues [1, 1] [0] ([[0, 2, 0, 1]].map toArr) = some res ∧
      ∀ j < 1 - 1 + 1,
        (getArrayExtremes ((([[0, 2, 0, 1]].map toArr).drop j).take 1) 2 1).1 <
          (getArrayExtremes ((([[0, 2, 0, 1]].map toArr).drop j).take 1) 2 1).2 →
        0 ≤ (res.yData.getD j (0, none)).1 ∧ (res.yData.getD j (0, none)).1 ≤ 100) ∧
    (StochasticIndicator.getValues [1, 1] [0] ([[0, 2, 0, 1]].map toArr)).map
      (fun res => res.yData.map Prod.fst) = some [50] := by
  constructor
  · exact stochastic_k_in_range 1 1 1 (by norm_num) (by norm_num) [0]
      [[0, 2, 0, 1]] rfl (by norm_num)
      (by intro r hr; simp at hr; simp [hr])
      (by intro r hr; simp at hr; simp [hr])
  · norm_num [StochasticIndicator.getValues, StochasticIndicator.firstRowIsOHLC,
      StochasticIndicator.stochLoop, StochasticIndicator.stochStep, toArr,
      getArrayExtremes, listMinD, listMaxD, getY, jsSliceLast, kdRow,
      SMAIndicator.getValues, smaLoop, headIsArray, min_def, max_def, List.getD,
      show (3 : ℤ).toNat = 3 from rfl, show (2 : ℤ).toNat = 2 from rfl,
      show (1 : ℤ).toNat = 1 from rfl, show (0 : ℤ).toNat = 0 from rfl]

theorem pow10_pos (s : ℤ) : 0 < pow10 s := by
  rw [pow10]
  split_ifs <;> positivity

/--
correctFloat only produces decimal fractions: it can never return a
rational of the form a/3 with a not divisible by 3 (such as 1/3 or
100/3).
-/
theorem correctFloat_ne_div_three (q : ℚ) (a : ℤ) (ha : ¬(3 : ℤ) ∣ a) :
    correctFloat q ≠ (a : ℚ) / 3 := by
  intro hEq
  rw [correctFloat] at hEq
  split_ifs at hEq with h0
  · have hz : (a : ℚ) = 0 := by
      field_simp at hEq
      linarith
    have : a = 0 := by exact_mod_cast hz
    exact ha (this ▸ dvd_zero 3)
  · set s : ℤ := 13 - ratExp10 |q| with hs
    set m : ℤ := round (q * pow10 s) with hm
    have hP := pow10_pos s
    have h3 : (m : ℚ) * 3 = (a : ℚ) * pow10 s := by
      field_simp at hEq
      linarith
    rw [pow10] at h3
    split_ifs at h3 with hsgn
    · have hz : m * 3 = a * ((10 : ℤ) ^ s.toNat) := by exact_mod_cast h3
      have hdvd : (3 : ℤ) ∣ a * (10 : ℤ) ^ s.toNat := ⟨m, by linarith⟩
      rcases (Int.prime_three.dvd_mul).1 hdvd with h | h
      · exact ha h
      · have h10 : (3 : ℤ) ∣ 10 := Int.prime_three.dvd_of_dvd_pow h
        norm_num at h10
    · have hne : ((10 ^ (-s).toNat : ℕ) : ℚ) ≠ 0 := by positivity
      have hq : (m : ℚ) * 3 * ((10 ^ (-s).toNat : ℕ) : ℚ) = (a : ℚ) := by
        rw [h3]
        field_simp
      have hz : m * 3 * (10 : ℤ) ^ (-s).toNat = a := by exact_mod_cast hq
      exact ha ⟨m * (10 : ℤ) ^ (-s).toNat, by linarith⟩

/-- Every point the DEMA loop appends carries a correctFloat value. -/
theorem demaLoop_out_rounded (period : ℕ) (pct : ℚ) (index : ℤ) (xVal : List ℚ)
    (yVal : List YVal) :
    ∀ (fuel i : ℕ) (st : DemaState),
      (∀ y ∈ st.out, ∃ z, correctFloat z = y.2) →
      ∀ y ∈ (DEMAIndicator.demaLoop period pct index xVal yVal i fuel st).out,
        ∃ z, correctFloat z = y.2 := by
  intro fuel
  induction fuel with
  | zero =>
    intro i st h
    rw [DEMAIndicator.demaLoop]
    exact h
  | succ fuel ih =>
    intro i st h
    rw [DEMAIndicator.demaLoop]
    apply ih
    intro y hy
    simp only at hy
    split_ifs at hy <;>
      first
        | exact h y hy
        | (rcases List.mem_append.1 hy with hy1 | hy2
           · exact h y hy1
           · rcases List.mem_singleton.1 hy2 with rfl
             exact ⟨_, rfl⟩)

/-- Every point the TEMA loop appends carries a correctFloat value. -/
theorem temaLoop_out_rounded (period : ℕ) (pct : ℚ) (index : ℤ) (xVal : List ℚ)
    (yVal : List YVal) :
    ∀ (fuel i : ℕ) (st : TemaState),
      (∀ y ∈ st.out, ∃ z, correctFloat z = y.2) →
      ∀ y ∈ (TEMAIndicator.temaLoop period pct index xVal yVal i fuel st).out,
        ∃ z, correctFloat z = y.2 := by
  intro fuel
  induction fuel with
  | zero =>
    intro i st h
    rw [TEMAIndicator.temaLoop]
    exact h
  | succ fuel ih =>
    intro i st h
    rw [TEMAIndicator.temaLoop]
    apply ih
    intro y hy
    simp only at hy
    split_ifs at hy <;>
      first
        | exact h y hy
        | (rcases List.mem_append.1 hy with hy1 | hy2
           · exact h y hy1
           · rcases List.mem_singleton.1 hy2 with rfl
             exact ⟨_, rfl⟩)

/--
C9 counterexample.  SMAIndicator.getValues over yData [1,0,0] with
period 3 returns the raw mean 1/3, which cannot be the output of
correctFloat (correctFloat only produces finite decimal fractions), so
the SMA yData values are not passed through correctFloat.
-/
theorem float_rounding_counterexample :
    (SMAIndicator.getValues 3 none [0, 1, 2] (([1, 0, 0] : List ℚ).map YVal.num)).map
      (fun r => r.yData) = some [1 / 3] ∧
    (1 : ℚ) / 3 ∉ Set.range correctFloat := by
  constructor
  · norm_num [SMAIndicator.getValues, smaLoop, headIsArray, getY]
  · rintro ⟨z, hz⟩
    exact correctFloat_ne_div_three z 1 (by norm_num) (by simpa using hz)

/--
C9 (amended).  The EMA-cascade indicators DEMA and TEMA and the PPO
pass every yData value through correctFloat (each value lies in the
range of correctFloat); SMAIndicator.getValues and
StochasticIndicator.getValues return their yData values unrounded, as
the raw outputs 1/3 and 100/3, which are not correctFloat values, show.
-/
theorem float_rounding_amended (p : ℕ) (pIdx : Option ℕ) (xs : List ℚ) (ys : List YVal) :
    (∀ r, DEMAIndicator.getValues p pIdx xs ys = some r →
      ∀ y ∈ r.yData, y ∈ Set.range correctFloat) ∧
    (∀ r, TEMAIndicator.getValues p pIdx xs ys = some r →
      ∀ y ∈ r.yData, y ∈ Set.range correctFloat) ∧
    (∀ per : List ℕ, ∀ r, PPOIndicator.getValues per pIdx xs ys = some r →
      ∀ y ∈ r.yData, y ∈ Set.range correctFloat) ∧
    ((SMAIndicator.getValues 3 none [0, 1, 2] (([1, 0, 0] : List ℚ).map YVal.num)).map
      (fun r => r.yData) = some [1 / 3] ∧ (1 : ℚ) / 3 ∉ Set.range correctFloat) ∧
    ((StochasticIndicator.getValues [1, 1] [0] [toArr [0, 3, 0, 1]]).map
      (fun res => res.yData.map Prod.fst) = some [100 / 3] ∧
      (100 : ℚ) / 3 ∉ Set.range correctFloat) := by
  refine ⟨?_, ?_, ?_, ?_, ?_⟩
  · intro r hr y hy
    by_cases hg : ys.length < 2 * p - 1
    · rw [DEMAIndicator.getValues, if_pos hg] at hr
      exact absurd hr (by simp)
    · rw [DEMAIndicator.getValues, if_neg hg] at hr
      obtain rfl := Option.some.inj hr
      obtain ⟨yp, hymem, rfl⟩ := List.mem_map.1 hy
      obtain ⟨z, hz⟩ := demaLoop_out_rounded p (2 / ((p : ℚ) + 1)) _ xs ys _ p
        ⟨none, none, _, 0, 0, [], []⟩ (by simp) yp hymem
      exact ⟨z, hz⟩
  · intro r hr y hy
    by_cases hg : ys.length < 3 * p - 2
    · rw [TEMAIndicator.getValues, if_pos hg] at hr
      exact absurd hr (by simp)
    · rw [TEMAIndicator.getValues, if_neg hg] at hr
      obtain rfl := Option.some.inj hr
      obtain ⟨yp, hymem, rfl⟩ := List.mem_map.1 hy
      obtain ⟨z, hz⟩ := temaLoop_out_rounded p (2 / ((p : ℚ) + 1)) _ xs ys _ p
        ⟨none, none, none, _, 0, 0, 0, [], [], []⟩ (by simp) yp hymem
      exact ⟨z, hz⟩
  · intro per r hr y hy
    by_cases hg : per.length ≠ 2 ∨ per.getD 1 0 ≤ per.getD 0 0
    · rw [PPOIndicator.getValues, if_pos hg] at hr
      exact absurd hr (by simp)
    · rw [PPOIndicator.getValues, if_neg hg] at hr
      rcases h1 : EMAIndicator.getValues (per.getD 0 0) pIdx xs ys with _ | SPE <;>
        rcases h2 : EMAIndicator.getValues (per.getD 1 0) pIdx xs ys with _ | LPE <;>
        rw [h1, h2] at hr
      · exact absurd hr (by simp)
      · exact absurd hr (by simp)
      · exact absurd hr (by simp)
      · obtain rfl := Option.some.inj hr
        obtain ⟨yp, hymem, rfl⟩ := List.mem_map.1 hy
        obtain ⟨i, _, rfl⟩ := List.mem_map.1 hymem
        exact ⟨_, rfl⟩
  · constructor
    · norm_num [SMAIndicator.getValues, smaLoop, headIsArray, getY]
    · rintro ⟨z, hz⟩
      exact correctFloat_ne_div_three z 1 (by norm_num) (by simpa using hz)
  · constructor
    · norm_num [StochasticIndicator.getValues, StochasticIndicator.firstRowIsOHLC,
        StochasticIndicator.stochLoop, StochasticIndicator.stochStep, toArr,
        getArrayExtremes, listMinD, listMaxD, getY, jsSliceLast, kdRow,
        SMAIndicator.getValues, smaLoop, headIsArray, min_def, max_def, List.getD,
        show (3 : ℤ).toNat = 3 from rfl, show (2 : ℤ).toNat = 2 from rfl,
        show (1 : ℤ).toNat = 1 from rfl, show (0 : ℤ).toNat = 0 from rfl]
    · rintro ⟨z, hz⟩
      exact correctFloat_ne_div_three z 100 (by norm_num) (by simpa using hz)

/--
Witness for the amended C9: DEMA over yData [2, 4] with period 1
produces yData [2, 4], and both values are in the range of
correctFloat by the amended theorem.
-/
theorem correctFloat_two : correctFloat 2 = 2 := by
  rw [correctFloat, if_neg (by norm_num)]
  have habs : |(2 : ℚ)| = 2 := by norm_num
  rw [habs, ratExp10, if_pos (by norm_num)]
  have hfl : ⌊(2 : ℚ)⌋ = 2 := by norm_num
  rw [hfl]
  norm_num [log10Fuel, pow10, round_eq, show (2 : ℤ).toNat = 2 from rfl,
    show (13 : ℤ).toNat = 13 from rfl]

theorem correctFloat_four : correctFloat 4 = 4 := by
  rw [correctFloat, if_neg (by norm_num)]
  have habs : |(4 : ℚ)| = 4 := by norm_num
  rw [habs, ratExp10, if_pos (by norm_num)]
  have hfl : ⌊(4 : ℚ)⌋ = 4 := by norm_num
  rw [hfl]
  norm_num [log10Fuel, pow10, round_eq, show (4 : ℤ).toNat = 4 from rfl,
    show (13 : ℤ).toNat = 13 from rfl]

theorem float_rounding_amended_witness :
    (2 : ℚ) ∈ Set.range correctFloat ∧ (4 : ℚ) ∈ Set.range correctFloat := by
  have hres : DEMAIndicator.getValues 1 none [0, 1] (([2, 4] : List ℚ).map YVal.num) =
      some ⟨[(0, 2), (1, 4)], [0, 1], [2, 4]⟩ := by
    norm_num [DEMAIndicator.getValues, DEMAIndicator.demaLoop,
      EMAIndicator.calculateEma, EMAIndicator.accumulatePeriodPoints,
      correctFloat_two, correctFloat_four, headIsArray, getY]
  have h := (float_rounding_amended 1 none [0, 1] (([2, 4] : List ℚ).map YVal.num)).1
    _ hres
  exact ⟨h 2 (by norm_num), h 4 (by norm_num)⟩

/- ===================================================================
   3D renderer: face3d (src/ts/parts-3d/SVGRenderer.ts, lines 233-322)
   =================================================================== -/

/-- A projected 2D point (PositionObject with x and y). -/
structure Point2 where
  x : ℚ
  y : ℚ
deriving DecidableEq

/-- A 3D vertex as stored in face3d.vertexes. -/
structure Point3 where
  x : ℚ
  y : ℚ
  z : ℚ
deriving DecidableEq

/-- Modelled from the spec: signed area of a projected 2D polygon
(the shoelace formula), used for back-face culling; H.shapeArea is
not under src/. -/
def shapeArea (v : List Point2) : ℚ :=
  ((List.range v.length).map (fun i =>
    (v.getD i ⟨0, 0⟩).x * (v.getD ((i + 1) % v.length) ⟨0, 0⟩).y -
      (v.getD ((i + 1) % v.length) ⟨0, 0⟩).x * (v.getD i ⟨0, 0⟩).y)).sum / 2

/-- SVG path tokens pushed by toLinePath (M / L commands, coordinates,
and the closing Z). -/
inductive SVGCmd where
  | M : SVGCmd
  | L : SVGCmd
  | Z : SVGCmd
  | coord : ℚ → SVGCmd
deriving DecidableEq

/-- SVGRenderer.prototype.toLinePath: push L x y for every point, turn
the first command into M, and append Z when the line is closed. -/
def toLinePath (points : List Point2) (closed : Bool) : List SVGCmd :=
  let result := (points.map (fun p => [SVGCmd.L, SVGCmd.coord p.x, SVGCmd.coord p.y])).flatten
  if points.length ≠ 0 then
    let result := result.set 0 SVGCmd.M
    if closed then result ++ [SVGCmd.Z] else result
  else result

/-- CSS visibility value assigned by face3d. -/
inductive Visibility where
  | visible : Visibility
  | hidden : Visibility
deriving DecidableEq

/-- The mutable state of a face3d element (ret.vertexes,
ret.insidePlotArea, ret.enabled). -/
structure Face3dState where
  vertexes : List Point3
  insidePlotArea : Bool
  enabled : Bool

/-- The attribute hash passed to attr/animate; a field is defined when
it is some. -/
structure Face3dHash where
  enabled : Option Bool
  vertexes : Option (List Point3)
  insidePlotArea : Option Bool

/-- The pick(hash.field, this.field) updates performed by both attr and
animate. -/
def face3dUpdate (s : Face3dState) (hash : Face3dHash) : Face3dState :=
  { vertexes := hash.vertexes.getD s.vertexes
    insidePlotArea := hash.insidePlotArea.getD s.insidePlotArea
    enabled := hash.enabled.getD s.enabled }

/-- face3d ret.attr, parametric in the perspective projection: when any
of enabled / vertexes / insidePlotArea is defined, update the state,
project the vertexes, and emit hash.d = toLinePath(vertexes2d, true)
and hash.visibility = (enabled and area greater than 0) ? visible :
hidden; otherwise leave everything alone. -/
def face3dAttr (persp : List Point3 → List Point2) (s : Face3dState)
    (hash : Face3dHash) : Face3dState × Option (List SVGCmd × Visibility) :=
  if hash.enabled.isSome ∨ hash.vertexes.isSome ∨ hash.insidePlotArea.isSome then
    let s2 := face3dUpdate s hash
    let vertexes2d := persp s2.vertexes
    let path := toLinePath vertexes2d true
    let area := shapeArea vertexes2d
    let visibility :=
      if s2.enabled ∧ 0 < area then Visibility.visible else Visibility.hidden
    (s2, some (path, visibility))
  else (s, none)

/-- face3d ret.animate performs the same update and computes the same
path and visibility (it assigns params.d and calls
this.attr with the visibility). -/
def face3dAnimate (persp : List Point3 → List Point2) (s : Face3dState)
    (params : Face3dHash) : Face3dState × Option (List SVGCmd × Visibility) :=
  if params.enabled.isSome ∨ params.vertexes.isSome ∨ params.insidePlotArea.isSome then
    let s2 := face3dUpdate s params
    let vertexes2d := persp s2.vertexes
    let path := toLinePath vertexes2d true
    let area := shapeArea vertexes2d
    let visibility :=
      if s2.enabled ∧ 0 < area then Visibility.visible else Visibility.hidden
    (s2, some (path, visibility))
  else (s, none)

/-- The drop-z projection used as a concrete perspective in witnesses. -/
def projXY : List Point3 → List Point2 :=
  fun l => l.map (fun p => ⟨p.x, p.y⟩)

/-- C2: for every face3d element and every attr/animate update that
supplies at least one of vertexes, enabled or insidePlotArea, both
attr and animate set the visibility to visible exactly when the
updated enabled flag is true and the signed area of the projected
vertex polygon is strictly positive; in particular a face whose
projection has zero signed area is marked hidden, and the update is
total (a path and visibility are always produced, never an
exception). -/
theorem face3d_visibility (persp : List Point3 → List Point2)
    (s : Face3dState) (hash : Face3dHash)
    (h : hash.enabled.isSome ∨ hash.vertexes.isSome ∨ hash.insidePlotArea.isSome) :
    ∃ path vis,
      face3dAttr persp s hash = (face3dUpdate s hash, some (path, vis)) ∧
      face3dAnimate persp s hash = (face3dUpdate s hash, some (path, vis)) ∧
      (vis = Visibility.visible ↔
        (face3dUpdate s hash).enabled = true ∧
          0 < shapeArea (persp (face3dUpdate s hash).vertexes)) ∧
      (shapeArea (persp (face3dUpdate s hash).vertexes) = 0 →
        vis = Visibility.hidden) := by
  refine ⟨toLinePath (persp (face3dUpdate s hash).vertexes) true,
    if (face3dUpdate s hash).enabled ∧
        0 < shapeArea (persp (face3dUpdate s hash).vertexes) then
      Visibility.visible else Visibility.hidden, ?_, ?_, ?_, ?_⟩
  · rw [face3dAttr, if_pos h]
  · rw [face3dAnimate, if_pos h]
  · constructor
    · intro hv
      by_contra hc
      rw [if_neg] at hv
      · exact absurd hv (by simp)
      · intro hand
        exact hc ⟨by simpa using hand.1, hand.2⟩
    · intro hand
      rw [if_pos ⟨by simpa using hand.1, hand.2⟩]
  · intro hz
    rw [if_neg]
    intro hand
    rw [hz] at hand
    exact absurd hand.2 (by norm_num)

theorem face3d_visibility_witness :
    ∃ path,
      face3dAttr projXY ⟨[], false, true⟩
          ⟨some true, some [⟨0, 0, 0⟩, ⟨0, 0, 0⟩, ⟨0, 0, 0⟩], none⟩ =
        (face3dUpdate ⟨[], false, true⟩
          ⟨some true, some [⟨0, 0, 0⟩, ⟨0, 0, 0⟩, ⟨0, 0, 0⟩], none⟩,
         some (path, Visibility.hidden)) := by
  obtain ⟨path, vis, heq, _, _, hzero⟩ :=
    face3d_visibility projXY ⟨[], false, true⟩
      ⟨some true, some [⟨0, 0, 0⟩, ⟨0, 0, 0⟩, ⟨0, 0, 0⟩], none⟩ (Or.inl rfl)
  have hz : shapeArea (projXY (face3dUpdate ⟨[], false, true⟩
      ⟨some true, some [⟨0, 0, 0⟩, ⟨0, 0, 0⟩, ⟨0, 0, 0⟩], none⟩).vertexes) = 0 := by
    norm_num [face3dUpdate, projXY, shapeArea, List.range_succ]
  rw [hzero hz] at heq
  exact ⟨path, heq⟩

/- ===================================================================
   3D renderer: cuboidPath (src/ts/parts-3d/SVGRenderer.ts, 624-792)
   =================================================================== -/

/-- The 8 corners pArr of the cube built by cuboidPath from
(x, y, z, width, height, depth), in source order. -/
def cuboidCorners (x y z w hgt dpt : ℚ) : List Point3 :=
  [⟨x, y, z⟩, ⟨x + w, y, z⟩, ⟨x + w, y + hgt, z⟩, ⟨x, y + hgt, z⟩,
   ⟨x, y + hgt, z + dpt⟩, ⟨x + w, y + hgt, z + dpt⟩, ⟨x + w, y, z + dpt⟩,
   ⟨x, y, z + dpt⟩]

/-- mapPath applied over a list of corner indices: the projected face
polygon (path.map(mapPath)). -/
def cuboidFace (pArr : List Point2) (idxs : List ℕ) : List Point2 :=
  idxs.map (fun i => pArr.getD i ⟨0, 0⟩)

/-- cuboidPath pickShape: the face of the pair whose projected polygon
has negative signed area, first member tested first; second component
0 selects path1, 1 selects path2 and -1 selects no path. -/
def cuboidPickShape (pArr : List Point2) (path1 path2 : List ℕ) :
    List Point2 × ℤ :=
  if shapeArea (cuboidFace pArr path1) < 0 then (cuboidFace pArr path1, 0)
  else if shapeArea (cuboidFace pArr path2) < 0 then (cuboidFace pArr path2, 1)
  else ([], -1)

/-- The record returned by cuboidPath: the three closed line paths, the
rounded group z-index and the isFront/isTop selectors. -/
structure CuboidPaths where
  front : List SVGCmd
  top : List SVGCmd
  side : List SVGCmd
  groupZIndex : ℤ
  isFront : ℤ
  isTop : ℤ

/-- SVGRenderer.prototype.cuboidPath, parametric in the perspective
projection applied to pArr.  The three face pairs are front/back =
[3,2,1,0]/[7,6,5,4], top/bottom = [1,6,7,0]/[4,5,2,3] and right/left =
[1,2,5,6]/[0,7,4,3]; the zIndex block adds incrementX = 10000,
incrementY = 10 and incrementZ = 100 contributions, where the JS
truthiness tests such as (not isRight) mean isRight = 0. -/
def cuboidPath (persp : List Point3 → List Point2)
    (alpha plotHeight x y z w hgt dpt : ℚ) : CuboidPaths :=
  let pArr := persp (cuboidCorners x y z w hgt dpt)
  let shapeF := cuboidPickShape pArr [3, 2, 1, 0] [7, 6, 5, 4]
  let shapeT := cuboidPickShape pArr [1, 6, 7, 0] [4, 5, 2, 3]
  let shapeS := cuboidPickShape pArr [1, 2, 5, 6] [0, 7, 4, 3]
  let isFront := shapeF.2
  let isTop := shapeT.2
  let isRight := shapeS.2
  let zIndex : ℚ :=
    (if isRight = 1 then 10000 * (1000 - x)
     else if isRight = 0 then 10000 * x else 0)
  let zIndex := zIndex + 10 *
    (if isTop = 0 ∨ (0 ≤ alpha ∧ alpha ≤ 180) ∨ (alpha < 360 ∧ 357.5 < alpha)
     then plotHeight - y else 10 + y)
  let zIndex := zIndex +
    (if isFront = 1 then 100 * z
     else if isFront = 0 then 100 * (1000 - z) else 0)
  { front := toLinePath shapeF.1 true
    top := toLinePath shapeT.1 true
    side := toLinePath shapeS.1 true
    groupZIndex := jsRound zIndex
    isFront := isFront
    isTop := isTop }

/-- C3: for every cuboid shape description and every projection,
cuboidPath returns as front, top and side the closed line path of the
member of the pair front/back, top/bottom, right/left whose projected
polygon has negative signed area, with the first member of each pair
tested first: if the first member has negative area it is chosen, and
otherwise the second is chosen when its area is negative. -/
theorem cuboid_face_selection (persp : List Point3 → List Point2)
    (alpha plotHeight x y z w hgt dpt : ℚ) :
    (shapeArea (cuboidFace (persp (cuboidCorners x y z w hgt dpt)) [3, 2, 1, 0]) < 0 →
      (cuboidPath persp alpha plotHeight x y z w hgt dpt).front =
        toLinePath (cuboidFace (persp (cuboidCorners x y z w hgt dpt)) [3, 2, 1, 0]) true) ∧
    (0 ≤ shapeArea (cuboidFace (persp (cuboidCorners x y z w hgt dpt)) [3, 2, 1, 0]) →
      shapeArea (cuboidFace (persp (cuboidCorners x y z w hgt dpt)) [7, 6, 5, 4]) < 0 →
      (cuboidPath persp alpha plotHeight x y z w hgt dpt).front =
        toLinePath (cuboidFace (persp (cuboidCorners x y z w hgt dpt)) [7, 6, 5, 4]) true) ∧
    (shapeArea (cuboidFace (persp (cuboidCorners x y z w hgt dpt)) [1, 6, 7, 0]) < 0 →
      (cuboidPath persp alpha plotHeight x y z w hgt dpt).top =
        toLinePath (cuboidFace (persp (cuboidCorners x y z w hgt dpt)) [1, 6, 7, 0]) true) ∧
    (0 ≤ shapeArea (cuboidFace (persp (cuboidCorners x y z w hgt dpt)) [1, 6, 7, 0]) →
      shapeArea (cuboidFace (persp (cuboidCorners x y z w hgt dpt)) [4, 5, 2, 3]) < 0 →
      (cuboidPath persp alpha plotHeight x y z w hgt dpt).top =
        toLinePath (cuboidFace (persp (cuboidCorners x y z w hgt dpt)) [4, 5, 2, 3]) true) ∧
    (shapeArea (cuboidFace (persp (cuboidCorners x y z w hgt dpt)) [1, 2, 5, 6]) < 0 →
      (cuboidPath persp alpha plotHeight x y z w hgt dpt).side =
        toLinePath (cuboidFace (persp (cuboidCorners x y z w hgt dpt)) [1, 2, 5, 6]) true) ∧
    (0 ≤ shapeArea (cuboidFace (persp (cuboidCorners x y z w hgt dpt)) [1, 2, 5, 6]) →
      shapeArea (cuboidFace (persp (cuboidCorners x y z w hgt dpt)) [0, 7, 4, 3]) < 0 →
      (cuboidPath persp alpha plotHeight x y z w hgt dpt).side =
        toLinePath (cuboidFace (persp (cuboidCorners x y z w hgt dpt)) [0, 7, 4, 3]) true) := by
  refine ⟨?_, ?_, ?_, ?_, ?_, ?_⟩
  · intro h1
    simp only [cuboidPath, cuboidPickShape, if_pos h1]
  · intro h1 h2
    simp only [cuboidPath, cuboidPickShape, if_neg (not_lt.2 h1), if_pos h2]
  · intro h1
    simp only [cuboidPath, cuboidPickShape, if_pos h1]
  · intro h1 h2
    simp only [cuboidPath, cuboidPickShape, if_neg (not_lt.2 h1), if_pos h2]
  · intro h1
    simp only [cuboidPath, cuboidPickShape, if_pos h1]
  · intro h1 h2
    simp only [cuboidPath, cuboidPickShape, if_neg (not_lt.2 h1), if_pos h2]

theorem cuboid_face_selection_witness :
    shapeArea (cuboidFace (projXY (cuboidCorners 0 0 0 1 1 1)) [3, 2, 1, 0]) < 0 ∧
    (cuboidPath projXY 0 0 0 0 0 1 1 1).front =
      toLinePath (cuboidFace (projXY (cuboidCorners 0 0 0 1 1 1)) [3, 2, 1, 0]) true := by
  have harea :
      shapeArea (cuboidFace (projXY (cuboidCorners 0 0 0 1 1 1)) [3, 2, 1, 0]) < 0 := by
    norm_num [shapeArea, cuboidFace, projXY, cuboidCorners, List.range_succ, List.getD]
  exact ⟨harea, (cuboid_face_selection projXY 0 0 0 0 0 1 1 1).1 harea⟩

/- ===================================================================
   3D renderer: arc3dPath z-indexes (src/ts/parts-3d/SVGRenderer.ts,
   lines 1056-1246).  The claim concerns only the z-index block (lines
   1207-1245); the top/out/inn/side path point lists, which no claim
   mentions, are omitted from the embedding.  The angles are real
   numbers, so this section works in the reals.
   =================================================================== -/

/-- Math.atan2(y, x), the argument of the point (x, y). -/
noncomputable def arcAtan2 (y x : ℝ) : ℝ := Complex.arg ⟨x, y⟩

/-- The JS remainder x % m for a nonnegative dividend (toZeroPIRange is
only applied to absolute values, where JS remainder agrees with
x - m * floor(x / m)). -/
noncomputable def jsModPos (x m : ℝ) : ℝ := x - m * ⌊x / m⌋

/-- toZeroPIRange from arc3dPath: reduce modulo 2 pi, then reflect
values above pi. -/
noncomputable def toZeroPIRange (angle : ℝ) : ℝ :=
  let a := jsModPos angle (2 * Real.pi)
  if a > Real.pi then 2 * Real.pi - a else a

/-- angleCorr = Math.atan2(dy, -dx) with dx = d sin(beta) and
dy = d sin(alpha). -/
noncomputable def arcAngleCorr (d alpha beta : ℝ) : ℝ :=
  arcAtan2 (d * Real.sin alpha) (-(d * Real.sin beta))

/-- angleEnd = toZeroPIRange(abs(end + angleCorr)), where end is the
input end angle minus 0.00001. -/
noncomputable def arcAngleEnd (endAngle d alpha beta : ℝ) : ℝ :=
  toZeroPIRange |endAngle - 0.00001 + arcAngleCorr d alpha beta|

/-- angleStart = toZeroPIRange(abs(start + angleCorr)). -/
noncomputable def arcAngleStart (start d alpha beta : ℝ) : ℝ :=
  toZeroPIRange |start + arcAngleCorr d alpha beta|

/-- angleMid = toZeroPIRange(abs((start + end) / 2 + angleCorr)). -/
noncomputable def arcAngleMid (start endAngle d alpha beta : ℝ) : ℝ :=
  toZeroPIRange |(start + (endAngle - 0.00001)) / 2 + arcAngleCorr d alpha beta|

/-- The five z-index values returned by arc3dPath. -/
structure Arc3dZIndexes where
  zTop : ℝ
  zOut : ℝ
  zInn : ℝ
  zSide1 : ℝ
  zSide2 : ℝ

/-- The z-index block of SVGRenderer.prototype.arc3dPath: with
incPrecision = 1e5, a1/a2/a3 are the mid/start/end corrected angles
scaled by incPrecision; zTop = pi * incPrecision + 1, zOut = zInn =
max(a1, a2, a3), zSide1 = a3 * 0.99 and zSide2 = a2 * 0.99.  The
center (cx, cy) and the radii r and ir do not enter the z-index
computation. -/
noncomputable def arc3dPathZ (_cx _cy _r _ir start endAngle d alpha beta : ℝ) :
    Arc3dZIndexes :=
  let a1 := arcAngleMid start endAngle d alpha beta * 100000
  let a2 := arcAngleStart start d alpha beta * 100000
  let a3 := arcAngleEnd endAngle d alpha beta * 100000
  { zTop := Real.pi * 100000 + 1
    zOut := max (max a1 a2) a3
    zInn := max (max a1 a2) a3
    zSide1 := a3 * 0.99
    zSide2 := a2 * 0.99 }

theorem toZeroPIRange_nonneg_le (t : ℝ) :
    0 ≤ toZeroPIRange t ∧ toZeroPIRange t ≤ Real.pi := by
  have hpi := Real.pi_pos
  have h2pi : (0 : ℝ) < 2 * Real.pi := by linarith
  have hfr : jsModPos t (2 * Real.pi) = 2 * Real.pi * Int.fract (t / (2 * Real.pi)) := by
    rw [jsModPos, Int.fract, mul_sub, mul_div_cancel₀ _ (ne_of_gt h2pi)]
  have h0 : 0 ≤ jsModPos t (2 * Real.pi) := by
    rw [hfr]
    exact mul_nonneg h2pi.le (Int.fract_nonneg _)
  have h1 : jsModPos t (2 * Real.pi) < 2 * Real.pi := by
    rw [hfr]
    calc 2 * Real.pi * Int.fract (t / (2 * Real.pi)) < 2 * Real.pi * 1 :=
          mul_lt_mul_of_pos_left (Int.fract_lt_one _) h2pi
      _ = 2 * Real.pi := mul_one _
  simp only [toZeroPIRange]
  by_cases hgt : jsModPos t (2 * Real.pi) > Real.pi
  · rw [if_pos hgt]
    constructor <;> linarith
  · rw [if_neg hgt]
    push_neg at hgt
    exact ⟨h0, hgt⟩

/-- C4: for every arc-slice input, the z-index values of arc3dPath
satisfy zTop strictly greater than each of zOut, zInn, zSide1 and
zSide2; zOut = zInn; zSide1 and zSide2 do not exceed zOut; and zSide1
is derived from the corrected end angle while zSide2 is derived from
the corrected start angle. -/
theorem arc3d_zindex_order (cx cy r ir start endAngle d alpha beta : ℝ) :
    (arc3dPathZ cx cy r ir start endAngle d alpha beta).zOut <
      (arc3dPathZ cx cy r ir start endAngle d alpha beta).zTop ∧
    (arc3dPathZ cx cy r ir start endAngle d alpha beta).zInn <
      (arc3dPathZ cx cy r ir start endAngle d alpha beta).zTop ∧
    (arc3dPathZ cx cy r ir start endAngle d alpha beta).zSide1 <
      (arc3dPathZ cx cy r ir start endAngle d alpha beta).zTop ∧
    (arc3dPathZ cx cy r ir start endAngle d alpha beta).zSide2 <
      (arc3dPathZ cx cy r ir start endAngle d alpha beta).zTop ∧
    (arc3dPathZ cx cy r ir start endAngle d alpha beta).zOut =
      (arc3dPathZ cx cy r ir start endAngle d alpha beta).zInn ∧
    (arc3dPathZ cx cy r ir start endAngle d alpha beta).zSide1 ≤
      (arc3dPathZ cx cy r ir start endAngle d alpha beta).zOut ∧
    (arc3dPathZ cx cy r ir start endAngle d alpha beta).zSide2 ≤
      (arc3dPathZ cx cy r ir start endAngle d alpha beta).zOut ∧
    (arc3dPathZ cx cy r ir start endAngle d alpha beta).zSide1 =
      arcAngleEnd endAngle d alpha beta * 100000 * 0.99 ∧
    (arc3dPathZ cx cy r ir start endAngle d alpha beta).zSide2 =
      arcAngleStart start d alpha beta * 100000 * 0.99 := by
  obtain ⟨hM0, hM1⟩ := toZeroPIRange_nonneg_le
    (|(start + (endAngle - 0.00001)) / 2 + arcAngleCorr d alpha beta|)
  obtain ⟨hS0, hS1⟩ := toZeroPIRange_nonneg_le (|start + arcAngleCorr d alpha beta|)
  obtain ⟨hE0, hE1⟩ := toZeroPIRange_nonneg_le
    (|endAngle - 0.00001 + arcAngleCorr d alpha beta|)
  have hM0' : 0 ≤ arcAngleMid start endAngle d alpha beta := hM0
  have hM1' : arcAngleMid start endAngle d alpha beta ≤ Real.pi := hM1
  have hS0' : 0 ≤ arcAngleStart start d alpha beta := hS0
  have hS1' : arcAngleStart start d alpha beta ≤ Real.pi := hS1
  have hE0' : 0 ≤ arcAngleEnd endAngle d alpha beta := hE0
  have hE1' : arcAngleEnd endAngle d alpha beta ≤ Real.pi := hE1
  have hMs : arcAngleMid start endAngle d alpha beta * 100000 ≤ Real.pi * 100000 :=
    mul_le_mul_of_nonneg_right hM1' (by norm_num)
  have hSs : arcAngleStart start d alpha beta * 100000 ≤ Real.pi * 100000 :=
    mul_le_mul_of_nonneg_right hS1' (by norm_num)
  have hEs : arcAngleEnd endAngle d alpha beta * 100000 ≤ Real.pi * 100000 :=
    mul_le_mul_of_nonneg_right hE1' (by norm_num)
  have hSs0 : 0 ≤ arcAngleStart start d alpha beta * 100000 :=
    mul_nonneg hS0' (by norm_num)
  have hEs0 : 0 ≤ arcAngleEnd endAngle d alpha beta * 100000 :=
    mul_nonneg hE0' (by norm_num)
  have hmax : max (max (arcAngleMid start endAngle d alpha beta * 100000)
      (arcAngleStart start d alpha beta * 100000))
      (arcAngleEnd endAngle d alpha beta * 100000) ≤ Real.pi * 100000 :=
    max_le (max_le hMs hSs) hEs
  have htop : Real.pi * 100000 < Real.pi * 100000 + 1 := by linarith
  have hside1 : arcAngleEnd endAngle d alpha beta * 100000 * 0.99 ≤
      arcAngleEnd endAngle d alpha beta * 100000 :=
    mul_le_of_le_one_right hEs0 (by norm_num)
  have hside2 : arcAngleStart start d alpha beta * 100000 * 0.99 ≤
      arcAngleStart start d alpha beta * 100000 :=
    mul_le_of_le_one_right hSs0 (by norm_num)
  simp only [arc3dPathZ]
  refine ⟨lt_of_le_of_lt hmax htop, lt_of_le_of_lt hmax htop, ?_, ?_, trivial, ?_, ?_,
    trivial, trivial⟩
  · exact lt_of_le_of_lt (le_trans hside1 hEs) htop
  · exact lt_of_le_of_lt (le_trans hside2 hSs) htop
  · exact le_trans hside1 (le_max_right _ _)
  · exact le_trans hside2 (le_trans (le_max_right _ _) (le_max_left _ _))

/- ===================================================================
   Grid axis: Tick afterGetLabelPosition cell bounds
   (src/ts/parts-gantt/GridAxis.ts, lines 290-420).  The claim
   concerns the left/right cell boundaries on a horizontal axis, so
   the embedding covers the left/right block (lines 357-371); the
   label x/y adjustment below it, which no claim mentions, is omitted.
   =================================================================== -/

/-- The chart side of an axis (axisSide[axis.side]). -/
inductive AxisSide where
  | top : AxisSide
  | right : AxisSide
  | bottom : AxisSide
  | left : AxisSide
deriving DecidableEq

/-- nextTickPos: the next tick position minus the tickmark offset when
tickPositions[index + 1] is a number, otherwise axis.max plus the
tickmark offset. -/
def gridNextTickPos (tickPositions : List ℚ) (index : ℕ)
    (tickmarkOffset axisMax : ℚ) : ℚ :=
  match tickPositions[index + 1]? with
  | some t => t - tickmarkOffset
  | none => axisMax + tickmarkOffset

/-- The left and right cell boundaries computed by the
afterGetLabelPosition handler: on side right or left they come from
the chart edges; otherwise (horizontal axis) each is
Math.round(axis.left + axis.translate(reversed ? nextTickPos :
tickPos)) - crispCorr, with tickPos and nextTickPos swapped for the
right boundary. -/
def gridCellLeftRight (translate : ℚ → ℚ) (side : AxisSide) (reversed : Bool)
    (axisLeft axisOffset chartWidth axisRightDist tickWidth crispCorr axisMax : ℚ)
    (tickPositions : List ℚ) (index : ℕ) (pos tickmarkOffset : ℚ) : ℚ × ℚ :=
  let tickPos := pos - tickmarkOffset
  let nxt := gridNextTickPos tickPositions index tickmarkOffset axisMax
  match side with
  | .right =>
    let l := chartWidth - axisRightDist + axisOffset
    (l, l + tickWidth)
  | .left =>
    let r := axisLeft + axisOffset
    (r - tickWidth, r)
  | _ =>
    (((jsRound (axisLeft + translate (cond reversed nxt tickPos)) : ℤ) : ℚ) - crispCorr,
     ((jsRound (axisLeft + translate (cond reversed tickPos nxt)) : ℤ) : ℚ) - crispCorr)

/-- The handler only computes cell bounds when gridOptions.enabled is
true. -/
def gridCellBounds (gridEnabled : Bool) (translate : ℚ → ℚ) (side : AxisSide)
    (reversed : Bool)
    (axisLeft axisOffset chartWidth axisRightDist tickWidth crispCorr axisMax : ℚ)
    (tickPositions : List ℚ) (index : ℕ) (pos tickmarkOffset : ℚ) :
    Option (ℚ × ℚ) :=
  cond gridEnabled
    (some (gridCellLeftRight translate side reversed axisLeft axisOffset chartWidth
      axisRightDist tickWidth crispCorr axisMax tickPositions index pos tickmarkOffset))
    none

/-- C7: on a grid-enabled, non-reversed horizontal axis (side top or
bottom), for adjacent tick positions t(i) less than t(i+1), the right
cell boundary computed for tick i equals the left cell boundary
computed for tick i+1, and both equal the rounded translated pixel
position of t(i+1) minus the tickmark offset, shifted by axis.left
and the crisp correction, so cells tile without gap or overlap. -/
theorem grid_cells_tile (translate : ℚ → ℚ) (side : AxisSide)
    (axisLeft axisOffset chartWidth axisRightDist tickWidth crispCorr axisMax tmo : ℚ)
    (tickPositions : List ℚ) (i : ℕ)
    (hside : side = AxisSide.top ∨ side = AxisSide.bottom)
    (hlen : i + 1 < tickPositions.length)
    (_hmono : tickPositions.getD i 0 < tickPositions.getD (i + 1) 0) :
    ∃ b1 b2 : ℚ × ℚ,
      gridCellBounds true translate side false axisLeft axisOffset chartWidth
        axisRightDist tickWidth crispCorr axisMax tickPositions i
        (tickPositions.getD i 0) tmo = some b1 ∧
      gridCellBounds true translate side false axisLeft axisOffset chartWidth
        axisRightDist tickWidth crispCorr axisMax tickPositions (i + 1)
        (tickPositions.getD (i + 1) 0) tmo = some b2 ∧
      b1.2 = b2.1 ∧
      b1.2 = ((jsRound (axisLeft + translate (tickPositions.getD (i + 1) 0 - tmo)) : ℤ) : ℚ)
        - crispCorr := by
  have h1 : tickPositions[i + 1]? = some tickPositions[i + 1] :=
    List.getElem?_eq_getElem hlen
  have h2 : tickPositions.getD (i + 1) 0 = tickPositions[i + 1] := by
    rw [List.getD_eq_getElem?_getD, h1]
    rfl
  rcases hside with h | h <;> subst h <;>
    refine ⟨_, _, rfl, rfl, ?_, ?_⟩ <;>
    simp only [gridCellLeftRight, gridNextTickPos, h1, h2, cond]

theorem grid_cells_tile_witness :
    ∃ b1 b2 : ℚ × ℚ,
      gridCellBounds true id AxisSide.top false 0 0 0 0 0 0 0 [0, 1] 0
        (([0, 1] : List ℚ).getD 0 0) 0 = some b1 ∧
      gridCellBounds true id AxisSide.top false 0 0 0 0 0 0 0 [0, 1] 1
        (([0, 1] : List ℚ).getD 1 0) 0 = some b2 ∧
      b1.2 = b2.1 ∧
      b1.2 = ((jsRound (0 + id (([0, 1] : List ℚ).getD 1 0 - 0)) : ℤ) : ℚ) - 0 :=
  grid_cells_tile id AxisSide.top 0 0 0 0 0 0 0 0 [0, 1] 0 (Or.inl rfl)
    (by norm_num) (by norm_num [List.getD])

/- ===================================================================
   Grid axis: Axis.prototype.isOuterAxis
   (src/ts/parts-gantt/GridAxis.ts, lines 188-215)
   =================================================================== -/

/-- The fields of an axis object read by isOuterAxis.  The id makes
distinct axis objects distinguishable, modelling JS identity; columns
arrays are represented by their length. -/
structure AxisCore where
  id : ℕ
  side : ℕ
  isInternal : Bool
  columnIndex : Option ℕ
  columnsLen : Option ℕ
deriving DecidableEq

/-- The default axis used for out-of-range list reads (never reached
under the index bounds carried by the lemmas below). -/
def dAxis : AxisCore := ⟨0, 0, false, none, none⟩

/-- The axis isOuterAxis is invoked on, together with its optional
linked parent. -/
structure GridAxisObj where
  core : AxisCore
  linkedParent : Option AxisCore

/-- columns = axis.linkedParent && axis.linkedParent.columns ||
axis.columns: the linked parent's columns when the parent exists and
has one, otherwise the axis's own columns. -/
def isOuterColumns (a : GridAxisObj) : Option ℕ :=
  match a.linkedParent with
  | some p =>
    match p.columnsLen with
    | some l => some l
    | none => a.core.columnsLen
  | none => a.core.columnsLen

/-- parentAxis = columnIndex ? axis.linkedParent : axis: JS truthiness
sends a zero or undefined columnIndex to the axis itself and a
nonzero one to the linked parent (which may be undefined). -/
def isOuterParent (a : GridAxisObj) : Option AxisCore :=
  match a.core.columnIndex with
  | some k => if k ≠ 0 then a.linkedParent else some a.core
  | none => some a.core

/-- The forEach loop of isOuterAxis: over same-side non-internal axes,
lastIndex tracks the loop index and thisIndex the index of parentAxis. -/
def outerLoop (side : ℕ) (pOpt : Option AxisCore) :
    List AxisCore → ℕ → ℤ × ℤ → ℤ × ℤ
  | [], _, st => st
  | o :: rest, idx, st =>
    if o.side = side ∧ o.isInternal = false then
      outerLoop side pOpt rest (idx + 1)
        ((idx : ℤ), if some o = pOpt then (idx : ℤ) else st.2)
    else
      outerLoop side pOpt rest (idx + 1) st

/-- Axis.prototype.isOuterAxis: run the loop from (lastIndex, thisIndex)
= (0, -1) and return lastIndex === thisIndex combined with the column
check columns.length === columnIndex when columnIndex is a number.
When columnIndex is numeric but columns is undefined the JS would
throw; the getD 0 default there is junk, excluded by the hypothesis
of the theorem below. -/
def isOuterAxis (a : GridAxisObj) (chartAxes : List AxisCore) : Bool :=
  let columns := isOuterColumns a
  let parentAxis := isOuterParent a
  let st := outerLoop a.core.side parentAxis chartAxes 0 (0, -1)
  decide (st.1 = st.2) &&
    a.core.columnIndex.elim true (fun k => decide (columns.getD 0 = k))

/-- Index i is a same-side non-internal axis of the chart list. -/
def axisMatches (side : ℕ) (axes : List AxisCore) (i : ℕ) : Prop :=
  i < axes.length ∧ (axes.getD i dAxis).side = side ∧
    (axes.getD i dAxis).isInternal = false

/-- The position of the last same-side non-internal axis. -/
def lastMatch (side : ℕ) : List AxisCore → Option ℕ
  | [] => none
  | o :: rest =>
    match lastMatch side rest with
    | some j => some (j + 1)
    | none => if o.side = side ∧ o.isInternal = false then some 0 else none

/-- The position of the last same-side non-internal axis equal to the
parent axis. -/
def lastHit (side : ℕ) (pOpt : Option AxisCore) : List AxisCore → Option ℕ
  | [] => none
  | o :: rest =>
    match lastHit side pOpt rest with
    | some j => some (j + 1)
    | none =>
      if (o.side = side ∧ o.isInternal = false) ∧ some o = pOpt then some 0
      else none

/-- Modelled from the spec: isOuterAxis holds when, among all
same-side non-internal axes of the chart collection, the parent axis
sits at the highest index, and a numeric columnIndex equals the
length of the owning columns array. -/
def isOuterSpec (a : GridAxisObj) (chartAxes : List AxisCore) : Prop :=
  ∃ p, isOuterParent a = some p ∧
    (∃ i, axisMatches a.core.side chartAxes i ∧ chartAxes.getD i dAxis = p ∧
      ∀ j, axisMatches a.core.side chartAxes j → j ≤ i) ∧
    (∀ k, a.core.columnIndex = some k → isOuterColumns a = some k)

theorem outerLoop_eq (side : ℕ) (pOpt : Option AxisCore) (axes : List AxisCore) :
    ∀ (idx : ℕ) (st : ℤ × ℤ),
      outerLoop side pOpt axes idx st =
        ((lastMatch side axes).elim st.1 (fun j => ((idx + j : ℕ) : ℤ)),
         (lastHit side pOpt axes).elim st.2 (fun j => ((idx + j : ℕ) : ℤ))) := by
  induction axes with
  | nil =>
    intro idx st
    simp [outerLoop, lastMatch, lastHit]
  | cons o rest ih =>
    intro idx st
    by_cases hm : o.side = side ∧ o.isInternal = false
    · rw [outerLoop, if_pos hm, ih]
      rcases hM : lastMatch side rest with _ | j <;>
        rcases hH : lastHit side pOpt rest with _ | j2 <;>
        by_cases hhit : some o = pOpt <;>
        simp [lastMatch, lastHit, hM, hH, hm, hhit, Option.elim] <;>
        omega
    · rw [outerLoop, if_neg hm]
      rw [ih]
      have hm' : ¬ (o.side = side ∧ o.isInternal = false) := hm
      rcases hM : lastMatch side rest with _ | j <;>
        rcases hH : lastHit side pOpt rest with _ | j2 <;>
        simp [lastMatch, lastHit, hM, hH, hm', Option.elim] <;>
        omega

theorem axisMatches_cons_zero (side : ℕ) (o : AxisCore) (rest : List AxisCore) :
    axisMatches side (o :: rest) 0 ↔ (o.side = side ∧ o.isInternal = false) := by
  simp [axisMatches]

theorem axisMatches_cons_succ (side : ℕ) (o : AxisCore) (rest : List AxisCore)
    (j : ℕ) : axisMatches side (o :: rest) (j + 1) ↔ axisMatches side rest j := by
  simp [axisMatches, Nat.succ_lt_succ_iff]

theorem lastMatch_none (side : ℕ) (axes : List AxisCore) :
    lastMatch side axes = none → ∀ j, ¬ axisMatches side axes j := by
  induction axes with
  | nil =>
    intro _ j hj
    exact absurd hj.1 (by simp)
  | cons o rest ih =>
    intro h j
    rw [lastMatch] at h
    rcases hM : lastMatch side rest with _ | j2
    · rw [hM] at h
      by_cases hm : o.side = side ∧ o.isInternal = false
      · rw [if_pos hm] at h
        exact absurd h (by simp)
      · match j with
        | 0 => rw [axisMatches_cons_zero]; exact hm
        | j + 1 => rw [axisMatches_cons_succ]; exact ih hM j
    · rw [hM] at h
      exact absurd h (by simp)

theorem lastMatch_some (side : ℕ) (axes : List AxisCore) :
    ∀ i, lastMatch side axes = some i →
      axisMatches side axes i ∧ ∀ j, axisMatches side axes j → j ≤ i := by
  induction axes with
  | nil =>
    intro i h
    exact absurd h (by simp [lastMatch])
  | cons o rest ih =>
    intro i h
    rw [lastMatch] at h
    rcases hM : lastMatch side rest with _ | j2
    · rw [hM] at h
      by_cases hm : o.side = side ∧ o.isInternal = false
      · rw [if_pos hm] at h
        obtain rfl : (0 : ℕ) = i := Option.some.inj h
        refine ⟨(axisMatches_cons_zero side o rest).2 hm, ?_⟩
        intro j hj
        match j with
        | 0 => exact le_refl 0
        | j + 1 =>
          exact absurd ((axisMatches_cons_succ side o rest j).1 hj)
            (lastMatch_none side rest hM j)
      · rw [if_neg hm] at h
        exact absurd h (by simp)
    · rw [hM] at h
      obtain rfl : j2 + 1 = i := Option.some.inj h
      obtain ⟨hmem, hmax⟩ := ih j2 hM
      refine ⟨(axisMatches_cons_succ side o rest j2).2 hmem, ?_⟩
      intro j hj
      match j with
      | 0 => exact Nat.zero_le _
      | j + 1 =>
        exact Nat.succ_le_succ (hmax j ((axisMatches_cons_succ side o rest j).1 hj))

theorem lastHit_some (side : ℕ) (p : AxisCore) (axes : List AxisCore) :
    ∀ i, lastHit side (some p) axes = some i →
      axisMatches side axes i ∧ axes.getD i dAxis = p := by
  induction axes with
  | nil =>
    intro i h
    exact absurd h (by simp [lastHit])
  | cons o rest ih =>
    intro i h
    rw [lastHit] at h
    rcases hH : lastHit side (some p) rest with _ | j2
    · rw [hH] at h
      by_cases hc : (o.side = side ∧ o.isInternal = false) ∧ some o = some p
      · rw [if_pos hc] at h
        obtain rfl : (0 : ℕ) = i := Option.some.inj h
        exact ⟨(axisMatches_cons_zero side o rest).2 hc.1, by
          simpa using Option.some.inj hc.2⟩
      · rw [if_neg hc] at h
        exact absurd h (by simp)
    · rw [hH] at h
      obtain rfl : j2 + 1 = i := Option.some.inj h
      obtain ⟨hmem, heq⟩ := ih j2 hH
      exact ⟨(axisMatches_cons_succ side o rest j2).2 hmem, by simpa using heq⟩

theorem lastHit_ge (side : ℕ) (p : AxisCore) (axes : List AxisCore) :
    ∀ i, axisMatches side axes i → axes.getD i dAxis = p →
      ∃ h2, lastHit side (some p) axes = some h2 ∧ i ≤ h2 := by
  induction axes with
  | nil =>
    intro i hi
    exact absurd hi.1 (by simp)
  | cons o rest ih =>
    intro i hi hp
    match i with
    | 0 =>
      have hm := (axisMatches_cons_zero side o rest).1 hi
      have hop : o = p := by simpa using hp
      rw [lastHit]
      rcases hH : lastHit side (some p) rest with _ | j2
      · rw [if_pos ⟨hm, by rw [hop]⟩]
        exact ⟨0, rfl, le_refl 0⟩
      · exact ⟨j2 + 1, rfl, Nat.zero_le _⟩
    | i + 1 =>
      have hm := (axisMatches_cons_succ side o rest i).1 hi
      have hp' : rest.getD i dAxis = p := by simpa using hp
      obtain ⟨h2, hh2, hle⟩ := ih i hm hp'
      rw [lastHit, hh2]
      exact ⟨h2 + 1, rfl, Nat.succ_le_succ hle⟩

theorem lastHit_none_parent (side : ℕ) (axes : List AxisCore) :
    lastHit side none axes = none := by
  induction axes with
  | nil => rw [lastHit]
  | cons o rest ih =>
    rw [lastHit, ih]
    simp

/-- C8: for every axis on a chart (with columns defined whenever
columnIndex is numeric, as the JS would otherwise throw), isOuterAxis
returns true if and only if, among all same-side non-internal axes of
the chart collection, the axis itself (or, for a column sub-axis, its
linked parent) sits at the highest index, and additionally, when the
axis has a numeric columnIndex, that columnIndex equals the length of
the owning columns array. -/
theorem isOuterAxis_iff (a : GridAxisObj) (chartAxes : List AxisCore)
    (hcols : a.core.columnIndex.isSome → (isOuterColumns a).isSome) :
    isOuterAxis a chartAxes = true ↔ isOuterSpec a chartAxes := by
  have hloop := outerLoop_eq a.core.side (isOuterParent a) chartAxes 0 (0, -1)
  simp only [isOuterAxis, hloop, isOuterSpec, Bool.and_eq_true, decide_eq_true_eq]
  have hcolEquiv : (a.core.columnIndex.elim true
      (fun k => decide ((isOuterColumns a).getD 0 = k)) = true) ↔
      (∀ k, a.core.columnIndex = some k → isOuterColumns a = some k) := by
    rcases hCI : a.core.columnIndex with _ | k
    · simp [Option.elim]
    · simp only [Option.elim, decide_eq_true_eq]
      constructor
      · intro hg k2 hk2
        obtain rfl : k = k2 := Option.some.inj hk2
        have hsome : (isOuterColumns a).isSome := hcols (by rw [hCI]; rfl)
        obtain ⟨L, hL⟩ := Option.isSome_iff_exists.1 hsome
        rw [hL] at hg ⊢
        simpa using hg
      · intro hall
        rw [hall k rfl]
        rfl
  rw [hcolEquiv]
  rcases hP : isOuterParent a with _ | p
  · rw [lastHit_none_parent]
    constructor
    · rintro ⟨h1, -⟩
      exfalso
      rcases hM : lastMatch a.core.side chartAxes with _ | m
      · rw [hM] at h1
        simp [Option.elim] at h1
      · rw [hM] at h1
        simp only [Option.elim] at h1
        omega
    · rintro ⟨p, hp, -⟩
      exact absurd hp (by simp)
  · rcases hM : lastMatch a.core.side chartAxes with _ | m
    · rcases hH : lastHit a.core.side (some p) chartAxes with _ | h2
      · simp only [Option.elim]
        constructor
        · rintro ⟨h01, -⟩
          exact absurd h01 (by norm_num)
        · rintro ⟨p', hp', ⟨i, hi, -, -⟩, -⟩
          exact absurd hi (lastMatch_none _ _ hM i)
      · exact absurd (lastHit_some _ _ _ h2 hH).1 (lastMatch_none _ _ hM h2)
    · rcases hH : lastHit a.core.side (some p) chartAxes with _ | h2
      · simp only [Option.elim]
        constructor
        · rintro ⟨hm1, -⟩
          exfalso
          omega
        · rintro ⟨p', hp', ⟨i, hi, hip, hmax⟩, -⟩
          obtain rfl : p = p' := Option.some.inj hp'
          obtain ⟨hh, hhh, -⟩ := lastHit_ge a.core.side p chartAxes i hi hip
          rw [hH] at hhh
          exact absurd hhh (by simp)
      · simp only [Option.elim]
        constructor
        · rintro ⟨hm1, hcol⟩
          have hmh : m = h2 := by omega
          obtain ⟨hmatch2, heqp⟩ := lastHit_some _ _ _ h2 hH
          obtain ⟨-, hmaxM⟩ := lastMatch_some _ _ m hM
          refine ⟨p, rfl, ⟨h2, hmatch2, heqp, ?_⟩, hcol⟩
          intro j hj
          have := hmaxM j hj
          omega
        · rintro ⟨p', hp', ⟨i, hi, hip, hmax⟩, hcol⟩
          obtain rfl : p = p' := Option.some.inj hp'
          obtain ⟨hmatchM, hmaxM⟩ := lastMatch_some _ _ m hM
          obtain ⟨hmatchH, -⟩ := lastHit_some _ _ _ h2 hH
          obtain ⟨hh, hhh, hih⟩ := lastHit_ge a.core.side p chartAxes i hi hip
          rw [hH] at hhh
          have hEq : h2 = hh := Option.some.inj hhh
          subst hEq
          have him : i ≤ m := hmaxM i hi
          have hmi : m ≤ i := hmax m hmatchM
          have hh2i : h2 ≤ i := hmax h2 hmatchH
          exact ⟨by omega, hcol⟩

theorem isOuterAxis_iff_witness :
    isOuterAxis ⟨⟨3, 3, false, none, none⟩, none⟩
      [⟨1, 3, false, none, none⟩, ⟨2, 3, false, none, none⟩,
       ⟨3, 3, false, none, none⟩] = true ∧
    isOuterSpec ⟨⟨3, 3, false, none, none⟩, none⟩
      [⟨1, 3, false, none, none⟩, ⟨2, 3, false, none, none⟩,
       ⟨3, 3, false, none, none⟩] ∧
    isOuterAxis ⟨⟨1, 3, false, none, none⟩, none⟩
      [⟨1, 3, false, none, none⟩, ⟨2, 3, false, none, none⟩,
       ⟨3, 3, false, none, none⟩] = false ∧
    isOuterAxis ⟨⟨2, 3, false, none, none⟩, none⟩
      [⟨1, 3, false, none, none⟩, ⟨2, 3, false, none, none⟩,
       ⟨3, 3, false, none, none⟩] = false := by
  have hb : isOuterAxis ⟨⟨3, 3, false, none, none⟩, none⟩
      [⟨1, 3, false, none, none⟩, ⟨2, 3, false, none, none⟩,
       ⟨3, 3, false, none, none⟩] = true := by decide
  exact ⟨hb, (isOuterAxis_iff ⟨⟨3, 3, false, none, none⟩, none⟩
    [⟨1, 3, false, none, none⟩, ⟨2, 3, false, none, none⟩,
     ⟨3, 3, false, none, none⟩] (by decide)).1 hb, by decide, by decide⟩
